import Mathlib

set_option maxRecDepth 100000
set_option maxHeartbeats 4000000

/-!
# Verification of the `aoc2023` repository (Rust) against its specification

This file shallowly embeds the Rust sources of the `aoc2023` repository
(one module per puzzle day, plus the `main.rs` dispatcher) as executable
Lean definitions, and proves or refutes the frozen claims about the
repository.

Conventions used throughout the embedding:

* Rust `u64`/`u32`/`usize`/`i64` values are modelled as `Nat`/`Int`; where
  wrap-around of machine arithmetic can matter the reduction `% 2^64` is
  written explicitly.
* A Rust function that can panic (`unwrap`, out-of-bounds indexing,
  `unreachable!`) is modelled as an `Option`-returning function, `none`
  standing for the panic/abort.
* Iterator pipelines are modelled by the corresponding `List` operations;
  in particular Rust's `flat_map(str::parse)` (which silently drops
  elements that fail to parse) is modelled by `List.filterMap`.
* Strings are modelled as `List Char` (obtained from Lean string literals
  via `.toList`).  All string helpers below are written with structural
  recursion so that concrete test inputs evaluate inside the kernel.
* Unbounded `loop`/recursion in the source is modelled with an explicit
  fuel argument; exhausting the fuel yields `none`.
-/

namespace Aoc

/-! ## Generic list/char/string helpers (models of the Rust std functions used) -/

/-- Split a character list at every occurrence of a separator satisfying
`sep`, keeping empty fields (model of Rust's `str::split`). -/
def splitAny (sep : Char → Bool) : List Char → List (List Char)
  | [] => [[]]
  | c :: rest =>
    match splitAny sep rest with
    | [] => [[]]
    | cur :: grps => if sep c then [] :: cur :: grps else (c :: cur) :: grps

/-- Model of Rust's `str::lines`: split on `'\n'`, and drop a final empty
line coming from a trailing newline. -/
def linesOf (s : List Char) : List (List Char) :=
  let parts := splitAny (· = '\n') s
  match parts.getLast? with
  | some [] => parts.dropLast
  | _ => parts

/-- Model of Rust's `str::split_ascii_whitespace`: maximal runs of
non-whitespace characters. -/
def wordsOf (s : List Char) : List (List Char) :=
  (splitAny (·.isWhitespace) s).filter (· ≠ [])

/-- Model of Rust's `str::trim`. -/
def trimChars (s : List Char) : List Char :=
  ((s.dropWhile (·.isWhitespace)).reverse.dropWhile (·.isWhitespace)).reverse

/-- Model of Rust's `str::strip_prefix`: `some` of the remainder when the
pattern is a prefix, otherwise `none`. -/
def stripPre (pat s : List Char) : Option (List Char) :=
  if pat.isPrefixOf s then some (s.drop pat.length) else none

/-- Split at the first occurrence of a (non-empty) separator string
(used to model iterators over `str::split(": ")`, where only the first two
fields are consumed).  Returns the pieces before and after the separator. -/
def splitOnceSeq (sep : List Char) : List Char → Option (List Char × List Char)
  | [] => none
  | c :: rest =>
    if sep.isPrefixOf (c :: rest) then some ([], (c :: rest).drop sep.length)
    else ((splitOnceSeq sep rest).map fun p => (c :: p.1, p.2))

/-- Model of Rust's `str::split_once(' ')`. -/
def splitOnceChar (sep : Char) : List Char → Option (List Char × List Char)
  | [] => none
  | c :: rest =>
    if c = sep then some ([], rest)
    else ((splitOnceChar sep rest).map fun p => (c :: p.1, p.2))

/-- Digit characters to `Nat`. -/
def digitsToNat : List Char → Option Nat
  | [] => none
  | l => l.foldlM (fun acc c => if c.isDigit then some (acc * 10 + (c.toNat - 48)) else none) 0

/-- Model of Rust's `FromStr` for unsigned integers with `w` bits:
an optional `'+'` sign followed by at least one digit, overflow rejected. -/
def parseUInt (w : Nat) (s : List Char) : Option Nat := do
  let body := match s with
    | '+' :: rest => rest
    | _ => s
  let n ← digitsToNat body
  if n < 2 ^ w then some n else none

/-- Model of Rust's `FromStr` for `i64` (sign, digits, two's-complement bounds). -/
def parseI64 (s : List Char) : Option Int :=
  match s with
  | '-' :: rest => (digitsToNat rest).bind fun n =>
      if n ≤ 2 ^ 63 then some (-(n : Int)) else none
  | '+' :: rest => (digitsToNat rest).bind fun n =>
      if n < 2 ^ 63 then some (n : Int) else none
  | _ => (digitsToNat s).bind fun n =>
      if n < 2 ^ 63 then some (n : Int) else none

/-- Model of Rust's `FromStr` for `i32`. -/
def parseI32 (s : List Char) : Option Int :=
  match s with
  | '-' :: rest => (digitsToNat rest).bind fun n =>
      if n ≤ 2 ^ 31 then some (-(n : Int)) else none
  | '+' :: rest => (digitsToNat rest).bind fun n =>
      if n < 2 ^ 31 then some (n : Int) else none
  | _ => (digitsToNat s).bind fun n =>
      if n < 2 ^ 31 then some (n : Int) else none

/-- `u64` wrap-around addition. -/
def add64 (a b : Nat) : Nat := (a + b) % 2 ^ 64

/-- `u64` wrap-around subtraction. -/
def sub64 (a b : Nat) : Nat := (a + (2 ^ 64 - b % 2 ^ 64)) % 2 ^ 64

/-- `u64` wrap-around multiplication. -/
def mul64 (a b : Nat) : Nat := (a * b) % 2 ^ 64

/-! ## An exact model of the IEEE-754 binary64 (`f64`) arithmetic used by `day06.rs`

Every `f64` value occurring in `count_record_beating_ways` is a dyadic
rational `m * 2^e` with `|m| < 2^53` and `e ≥ -150`, so it is represented
exactly as the integer `M = value * 2^200` (fixed point at scale `2^200`).
Rounding to a representable `f64` is rounding the magnitude to 53
significant bits with round-to-nearest, ties-to-even; `f64::sqrt` is
correctly rounded (IEEE 754 requirement).  Overflow and subnormals are
unreachable in the value range of this program and are not modelled. -/

/-- Binary-exponent extraction along a halving ladder of exponents:
`lg2 [256, 128, ..., 1] n` is `⌊log2 n⌋` for `1 ≤ n < 2^512`. -/
def lg2 : List Nat → Nat → Nat
  | [], _ => 0
  | k :: ks, n => if 2 ^ k ≤ n then lg2 ks (n / 2 ^ k) + k else lg2 ks n

/-- `⌊log2 n⌋`, exact for every number appearing here (`n < 2^512`). -/
def natLog2 (n : Nat) : Nat := lg2 [256, 128, 64, 32, 16, 8, 4, 2, 1] n

/-- Bit-by-bit integer square root accumulator. -/
def sqrtBits (n : Nat) : Nat → Nat → Nat
  | 0, r => r
  | f + 1, r => sqrtBits n f (if (r + 2 ^ f) * (r + 2 ^ f) ≤ n then r + 2 ^ f else r)

/-- `⌊√n⌋` (the bit loop starts just above the leading bit of `√n`). -/
def isqrt (n : Nat) : Nat := sqrtBits n (natLog2 n / 2 + 1) 0

/-- Round a natural number to 53 significant bits, nearest, ties to even. -/
def round53Mag (a : Nat) : Nat :=
  let L := natLog2 a
  if L < 53 then a
  else
    let t := L - 52
    let lo := a / 2 ^ t
    let r := a % 2 ^ t
    let half := 2 ^ (t - 1)
    let m := if half < r then lo + 1
      else if r < half then lo
      else if lo % 2 = 0 then lo else lo + 1
    m * 2 ^ t

/-- Round a fixed-point value to the nearest representable `f64`. -/
def round53 (M : Int) : Int :=
  if M < 0 then -(round53Mag (-M).toNat : Nat) else (round53Mag M.toNat : Nat)

/-- `u64 as f64` (and `f64` literals like `1.0`): nearest-even conversion. -/
def fofNat (n : Nat) : Int := (round53Mag (n * 2 ^ 200) : Nat)

/-- `f64` addition. -/
def fadd (x y : Int) : Int := round53 (x + y)

/-- `f64` subtraction. -/
def fsub (x y : Int) : Int := round53 (x - y)

/-- `f64` division by `2.0` (exact in binary64 for this program's exponent
range; all scaled operands here are divisible by a large power of two). -/
def fdiv2 (x : Int) : Int := round53 (x / 2)

/-- Correctly rounded `f64::sqrt` of a non-negative *integer-valued* input
`n` (valid for `n < 2^106`; the only inputs here are `u64` deltas converted
to `f64`, which are integral): the result is the 53-bit significand nearest
to `√n`, at exponent `⌊log2 √n⌋ - 52`. -/
def fsqrtInt (n : Nat) : Int :=
  if n = 0 then 0
  else
    let E := natLog2 n / 2
    let j := 52 - E
    let N := n * 2 ^ (2 * j)
    let s := isqrt N
    let m := if N - s * s ≤ (s + 1) * (s + 1) - N then s else s + 1
    ((m * 2 ^ (E + 148) : Nat) : Int)

/-- `f64::sqrt` on a fixed-point value known to be an integer-valued float. -/
def fsqrt (x : Int) : Int := fsqrtInt (x / 2 ^ 200).toNat

/-- `f64::ceil`, as an exact integer. -/
def fceil (x : Int) : Int := -((-x).fdiv (2 ^ 200))

/-- `f64::floor`, as an exact integer. -/
def ffloor (x : Int) : Int := x.fdiv (2 ^ 200)

/-- Rust's saturating `f64 as u64` cast applied to an integral float. -/
def castU64 (i : Int) : Nat := min i.toNat (2 ^ 64 - 1)

theorem sqrtBits_spec :
    ∀ (f n r : Nat), r * r ≤ n → (∀ y, r < y → y * y ≤ n → y < r + 2 ^ f) →
      sqrtBits n f r * sqrtBits n f r ≤ n ∧ ∀ y, sqrtBits n f r < y → n < y * y := by
  intro f
  induction f with
  | zero =>
    intro n r hr hy
    rw [sqrtBits]
    simp only [pow_zero] at hy
    refine ⟨hr, fun y hlt => ?_⟩
    by_contra hcon
    have h1 : y * y ≤ n := by omega
    have h2 := hy y hlt h1
    omega
  | succ g ih =>
    intro n r hr hy
    rw [sqrtBits]
    have hpow : (2 : Nat) ^ (g + 1) = 2 ^ g + 2 ^ g := by ring
    rw [hpow] at hy
    by_cases hc : (r + 2 ^ g) * (r + 2 ^ g) ≤ n
    · rw [if_pos hc]
      refine ih n (r + 2 ^ g) hc fun y hlt hle => ?_
      have h1 : r < y := lt_of_le_of_lt (Nat.le_add_right r _) hlt
      have h2 := hy y h1 hle
      omega
    · rw [if_neg hc]
      refine ih n r hr fun y hlt hle => ?_
      by_contra hcon
      have hyge : r + 2 ^ g ≤ y := le_of_not_lt hcon
      have hsq : (r + 2 ^ g) * (r + 2 ^ g) ≤ y * y := Nat.mul_le_mul hyge hyge
      omega

/-- The property that `lg2 ks` computes `⌊log2⌋` for all inputs below `2^B`. -/
def Lg2Good (ks : List Nat) (B : Nat) : Prop :=
  ∀ m, 1 ≤ m → m < 2 ^ B → 2 ^ lg2 ks m ≤ m ∧ m < 2 ^ (lg2 ks m + 1)

theorem lg2Good_nil : Lg2Good [] 1 := by
  intro m h1 h2
  have hm : m = 1 := by norm_num at h2; omega
  subst hm
  norm_num [lg2]

theorem lg2Good_cons (k : Nat) {ks : List Nat} (hk : 0 < k) (h : Lg2Good ks k) :
    Lg2Good (k :: ks) (2 * k) := by
  intro m h1 h2
  rw [lg2]
  by_cases hc : 2 ^ k ≤ m
  · rw [if_pos hc]
    have hq1 : 1 ≤ m / 2 ^ k := (Nat.one_le_div_iff (Nat.pos_pow_of_pos k (by omega))).mpr hc
    have hq2 : m / 2 ^ k < 2 ^ k := by
      rw [Nat.div_lt_iff_lt_mul (Nat.pos_pow_of_pos k (by omega))]
      calc m < 2 ^ (2 * k) := h2
        _ = 2 ^ k * 2 ^ k := by rw [two_mul, pow_add]
    obtain ⟨hlo, hhi⟩ := h (m / 2 ^ k) hq1 hq2
    constructor
    · calc 2 ^ (lg2 ks (m / 2 ^ k) + k) = 2 ^ lg2 ks (m / 2 ^ k) * 2 ^ k := pow_add 2 _ _
        _ ≤ m / 2 ^ k * 2 ^ k := Nat.mul_le_mul_right _ hlo
        _ ≤ m := Nat.div_mul_le_self m (2 ^ k)
    · have hdm := Nat.div_add_mod m (2 ^ k)
      have hr : m % 2 ^ k < 2 ^ k := Nat.mod_lt m (Nat.pos_pow_of_pos k (by omega))
      have hstep : m < (m / 2 ^ k + 1) * 2 ^ k := by
        rw [add_mul, one_mul, mul_comm]
        omega
      calc m < (m / 2 ^ k + 1) * 2 ^ k := hstep
        _ ≤ 2 ^ (lg2 ks (m / 2 ^ k) + 1) * 2 ^ k := Nat.mul_le_mul_right _ hhi
        _ = 2 ^ (lg2 ks (m / 2 ^ k) + k + 1) := by rw [← pow_add]; ring_nf
  · rw [if_neg hc]
    exact h m h1 (by omega)

theorem natLog2_spec (n : Nat) (h1 : 1 ≤ n) (h2 : n < 2 ^ 512) :
    2 ^ natLog2 n ≤ n ∧ n < 2 ^ (natLog2 n + 1) := by
  have g1 : Lg2Good [1] 2 := by
    have := lg2Good_cons 1 (by omega) lg2Good_nil
    simpa using this
  have g2 : Lg2Good [2, 1] 4 := by
    have := lg2Good_cons 2 (by omega) g1
    simpa using this
  have g4 : Lg2Good [4, 2, 1] 8 := by
    have := lg2Good_cons 4 (by omega) g2
    simpa using this
  have g8 : Lg2Good [8, 4, 2, 1] 16 := by
    have := lg2Good_cons 8 (by omega) g4
    simpa using this
  have g16 : Lg2Good [16, 8, 4, 2, 1] 32 := by
    have := lg2Good_cons 16 (by omega) g8
    simpa using this
  have g32 : Lg2Good [32, 16, 8, 4, 2, 1] 64 := by
    have := lg2Good_cons 32 (by omega) g16
    simpa using this
  have g64 : Lg2Good [64, 32, 16, 8, 4, 2, 1] 128 := by
    have := lg2Good_cons 64 (by omega) g32
    simpa using this
  have g128 : Lg2Good [128, 64, 32, 16, 8, 4, 2, 1] 256 := by
    have := lg2Good_cons 128 (by omega) g64
    simpa using this
  have g256 : Lg2Good [256, 128, 64, 32, 16, 8, 4, 2, 1] 512 := by
    have := lg2Good_cons 256 (by omega) g128
    simpa using this
  exact g256 n h1 h2

/-- `isqrt` is the integer square root (for all `n < 2^512`). -/
theorem isqrt_spec (n : Nat) (h : n < 2 ^ 512) :
    isqrt n * isqrt n ≤ n ∧ n < (isqrt n + 1) * (isqrt n + 1) := by
  have h0 : (0 : Nat) * 0 ≤ n := by omega
  have hbound : ∀ y, 0 < y → y * y ≤ n → y < 0 + 2 ^ (natLog2 n / 2 + 1) := by
    intro y hy hle
    by_contra hcon
    have hn1 : 1 ≤ n := by
      have : 1 * 1 ≤ y * y := Nat.mul_le_mul hy hy
      omega
    obtain ⟨hlo, hhi⟩ := natLog2_spec n hn1 h
    have hyge : 2 ^ (natLog2 n / 2 + 1) ≤ y := by omega
    have hsq : 2 ^ (natLog2 n / 2 + 1) * 2 ^ (natLog2 n / 2 + 1) ≤ y * y :=
      Nat.mul_le_mul hyge hyge
    have hexp : natLog2 n + 1 ≤ (natLog2 n / 2 + 1) + (natLog2 n / 2 + 1) := by omega
    have hpow : 2 ^ (natLog2 n + 1) ≤
        2 ^ (natLog2 n / 2 + 1) * 2 ^ (natLog2 n / 2 + 1) := by
      rw [← pow_add]
      exact Nat.pow_le_pow_right (by omega) hexp
    omega
  obtain ⟨hA, hB⟩ := sqrtBits_spec (natLog2 n / 2 + 1) n 0 h0 hbound
  unfold isqrt
  exact ⟨hA, hB _ (by omega)⟩

/-! ## Day 09 (`day09.rs`): finite-difference extrapolation -/

namespace Day09

/-- `parse_input`: each line is split on ASCII whitespace and fed through
`flat_map(str::parse::<i64>)`, so tokens that fail to parse are silently
dropped.  The function is total: no input makes it abort. -/
def parseInput (s : List Char) : List (List Int) :=
  (linesOf s).map fun line => (wordsOf line).filterMap parseI64

/-- `reduce`: the pairwise forward-difference list (`map_windows |[a,b]| b - a`). -/
def reduce (data : List Int) : List Int :=
  data.zipWith (fun a b => b - a) data.tail

/-- `extrapolate_back_rec`, with explicit fuel bounding the recursion depth.
`none` models either the `data.last().unwrap()` panic on an empty list or
exhaustion of the fuel. -/
def extrapolateBackRec : Nat → List Int → Option Int
  | 0, _ => none
  | fuel + 1, data =>
    (data.getLast?).bind fun x =>
      let step := reduce data
      if step.any (· ≠ 0) then (extrapolateBackRec fuel step).map (x + ·)
      else some x

/-- `extrapolate_front_rec`, with explicit fuel (see `extrapolateBackRec`). -/
def extrapolateFrontRec : Nat → List Int → Option Int
  | 0, _ => none
  | fuel + 1, data =>
    (data.head?).bind fun x =>
      let step := reduce data
      if step.any (· ≠ 0) then (extrapolateFrontRec fuel step).map (x - ·)
      else some x

theorem reduce_length (data : List Int) : (reduce data).length = data.length - 1 := by
  cases data with
  | nil => rfl
  | cons a l =>
    simp [reduce, List.length_zipWith]

theorem extrapolateBackRec_isSome :
    ∀ n (data : List Int), data ≠ [] → data.length ≤ n →
      (extrapolateBackRec n data).isSome := by
  intro n
  induction n with
  | zero => intro data hne hlen; cases data <;> simp_all
  | succ m ih =>
    intro data hne hlen
    have hlast : data.getLast?.isSome := List.getLast?_isSome.mpr hne
    obtain ⟨x, hx⟩ := Option.isSome_iff_exists.mp hlast
    have hunfold : extrapolateBackRec (m + 1) data =
        (data.getLast?).bind fun x =>
          if (reduce data).any (· ≠ 0) then (extrapolateBackRec m (reduce data)).map (x + ·)
          else some x := rfl
    rw [hunfold, hx, Option.some_bind]
    cases hstep : (reduce data).any (· ≠ 0) with
    | false => rw [if_neg (by simp)]; rfl
    | true =>
      rw [if_pos rfl]
      have hstepne : reduce data ≠ [] := by
        intro h; rw [h] at hstep; simp [List.any] at hstep
      have hsteplen : (reduce data).length ≤ m := by
        have := reduce_length data
        have hdl : 1 ≤ data.length := by
          cases data with
          | nil => exact absurd rfl hne
          | cons a l => simp
        omega
      have hih := ih (reduce data) hstepne hsteplen
      simpa using hih

theorem extrapolateFrontRec_isSome :
    ∀ n (data : List Int), data ≠ [] → data.length ≤ n →
      (extrapolateFrontRec n data).isSome := by
  intro n
  induction n with
  | zero => intro data hne hlen; cases data <;> simp_all
  | succ m ih =>
    intro data hne hlen
    have hhead : data.head?.isSome := by
      cases data with
      | nil => exact absurd rfl hne
      | cons a l => rfl
    obtain ⟨x, hx⟩ := Option.isSome_iff_exists.mp hhead
    have hunfold : extrapolateFrontRec (m + 1) data =
        (data.head?).bind fun x =>
          if (reduce data).any (· ≠ 0) then (extrapolateFrontRec m (reduce data)).map (x - ·)
          else some x := rfl
    rw [hunfold, hx, Option.some_bind]
    cases hstep : (reduce data).any (· ≠ 0) with
    | false => rw [if_neg (by simp)]; rfl
    | true =>
      rw [if_pos rfl]
      have hstepne : reduce data ≠ [] := by
        intro h; rw [h] at hstep; simp [List.any] at hstep
      have hsteplen : (reduce data).length ≤ m := by
        have := reduce_length data
        have hdl : 1 ≤ data.length := by
          cases data with
          | nil => exact absurd rfl hne
          | cons a l => simp
        omega
      have hih := ih (reduce data) hstepne hsteplen
      simpa using hih

end Day09

/-! ## Day 04 (`day04.rs`): scratchcards -/

namespace Day04

/-- `Scratchcard`: a card id (`usize`) and the number of matches (`u32`,
the source field `matches`, renamed because `matches` is a Lean keyword). -/
structure Scratchcard where
  id : Nat
  nMatches : Nat
deriving DecidableEq

/-- `Scratchcard::points`: `2^(matches-1)` when there is at least one match. -/
def points (c : Scratchcard) : Nat :=
  if c.nMatches > 0 then 2 ^ (c.nMatches - 1) else 0

/-- `FromStr for Scratchcard`: strip the `"Card"` text, split on `':'`/`'|'`,
parse the id, then the winning and lottery number sets; `matches` is the size
of their intersection (the Rust `HashSet` intersection counts distinct common
values).  All failure paths use `?`/`ok_or`, so a failure is an `Err` (here
`none`), which callers skip via `flat_map`. -/
def parseScratchcard (s : List Char) : Option Scratchcard := do
  let rest ← stripPre "Card".toList s
  let fields := splitAny (fun c => c = ':' || c = '|') rest
  let idStr ← fields.head?
  let id ← parseUInt 64 (trimChars idStr)
  let winStr ← fields[1]?
  let lotStr ← fields[2]?
  -- `collect::<Result<HashSet<u32>, _>>()`: any bad token fails the whole set
  let win ← (wordsOf winStr).mapM (parseUInt 32)
  let lot ← (wordsOf lotStr).mapM (parseUInt 32)
  let m := ((win.dedup).filter (lot.contains ·)).length
  pure ⟨id, m⟩

/-- Inner loop of `process_card_pile`: `(card.id..card.id + card.matches)
.for_each(|i| card_pile[i] += n_cards)`.  An index at or past the pile length
is an out-of-bounds panic, modelled as `none`. -/
def addRange (pile : List Nat) (i : Nat) : Nat → Nat → Option (List Nat)
  | 0, _ => some pile
  | k + 1, n =>
    if i < pile.length then addRange (pile.set i (pile.getD i 0 + n)) (i + 1) k n
    else none

/-- One iteration of the `for card in cards` loop of `process_card_pile`.
Reading `card_pile[card.id - 1]` with `card.id = 0` underflows the `usize`
index and panics, hence the explicit guard. -/
def pileStep (pile : List Nat) (card : Scratchcard) : Option (List Nat) :=
  if card.id = 0 then none
  else if card.id - 1 < pile.length then
    addRange pile card.id card.nMatches (pile.getD (card.id - 1) 0)
  else none

/-- `process_card_pile`: occurrence array of ones, the per-card copying loop,
then the sum of the array. -/
def processCardPile (cards : List Scratchcard) : Option Nat :=
  (cards.foldlM pileStep (List.replicate cards.length 1)).map (·.foldl (· + ·) 0)

theorem addRange_length {pile pile' : List Nat} {i k n : Nat}
    (h : addRange pile i k n = some pile') : pile'.length = pile.length := by
  induction k generalizing pile i with
  | zero => simp [addRange] at h; simp [← h]
  | succ m ih =>
    by_cases hi : i < pile.length
    · rw [addRange, if_pos hi] at h
      have := ih h
      simpa using this
    · rw [addRange, if_neg hi] at h
      exact absurd h (by simp)

theorem addRange_isSome {pile : List Nat} {i k n : Nat}
    (h : i + k ≤ pile.length) : (addRange pile i k n).isSome := by
  induction k generalizing pile i with
  | zero => simp [addRange]
  | succ m ih =>
    have hi : i < pile.length := by omega
    rw [addRange, if_pos hi]
    exact ih (by simp; omega)

theorem addRange_none {pile : List Nat} {i k n : Nat}
    (hk : 0 < k) (h : pile.length < i + k) : addRange pile i k n = none := by
  induction k generalizing pile i with
  | zero => omega
  | succ m ih =>
    by_cases hi : i < pile.length
    · rw [addRange, if_pos hi]
      exact ih (by omega) (by simp; omega)
    · rw [addRange, if_neg hi]

/-- The ids of the cards are sequential, starting at `k + 1`. -/
def SeqIdsFrom : Nat → List Scratchcard → Prop
  | _, [] => True
  | k, c :: rest => c.id = k + 1 ∧ SeqIdsFrom (k + 1) rest

theorem seqIdsFrom_mem {k : Nat} {cs : List Scratchcard} (h : SeqIdsFrom k cs) :
    ∀ c ∈ cs, k + 1 ≤ c.id ∧ c.id ≤ k + cs.length := by
  induction cs generalizing k with
  | nil => intro c hc; cases hc
  | cons a l ih =>
    intro c hc
    obtain ⟨ha, hl⟩ := h
    cases hc with
    | head => simp only [List.length_cons]; omega
    | tail _ hmem =>
      have := ih hl c hmem
      simp only [List.length_cons]
      omega

theorem pileFold_isSome {cs : List Scratchcard} {pile : List Nat}
    (h : ∀ c ∈ cs, 1 ≤ c.id ∧ c.id ≤ pile.length ∧ c.id + c.nMatches ≤ pile.length) :
    (cs.foldlM pileStep pile).isSome := by
  induction cs generalizing pile with
  | nil => simp [List.foldlM]
  | cons c l ih =>
    obtain ⟨h1, h2, h3⟩ := h c (List.mem_cons_self c l)
    have hstep : (pileStep pile c).isSome := by
      rw [pileStep, if_neg (by omega), if_pos (by omega)]
      exact addRange_isSome h3
    obtain ⟨pile', hp'⟩ := Option.isSome_iff_exists.mp hstep
    have hlen : pile'.length = pile.length := by
      rw [pileStep, if_neg (by omega), if_pos (by omega)] at hp'
      exact addRange_length hp'
    have : (l.foldlM pileStep pile').isSome := by
      refine ih fun c' hc' => ?_
      have := h c' (List.mem_cons_of_mem c hc')
      omega
    simpa [List.foldlM, hp'] using this

theorem pileFold_none {cs : List Scratchcard} {pile : List Nat}
    (hok : ∀ c ∈ cs, 1 ≤ c.id ∧ c.id ≤ pile.length)
    (hbad : ∃ c ∈ cs, pile.length < c.id + c.nMatches) :
    cs.foldlM pileStep pile = none := by
  induction cs generalizing pile with
  | nil => simp at hbad
  | cons c l ih =>
    obtain ⟨h1, h2⟩ := hok c (List.mem_cons_self c l)
    by_cases hc : pile.length < c.id + c.nMatches
    · have hstep : pileStep pile c = none := by
        rw [pileStep, if_neg (by omega), if_pos (by omega)]
        exact addRange_none (by omega) (by omega)
      simp [List.foldlM, hstep]
    · have hstep : (pileStep pile c).isSome := by
        rw [pileStep, if_neg (by omega), if_pos (by omega)]
        exact addRange_isSome (by omega)
      obtain ⟨pile', hp'⟩ := Option.isSome_iff_exists.mp hstep
      have hlen : pile'.length = pile.length := by
        rw [pileStep, if_neg (by omega), if_pos (by omega)] at hp'
        exact addRange_length hp'
      have hbad' : ∃ c' ∈ l, pile'.length < c'.id + c'.nMatches := by
        obtain ⟨c', hc'mem, hc'⟩ := hbad
        cases hc'mem with
        | head => omega
        | tail _ hmem => exact ⟨c', hmem, by omega⟩
      have := ih (fun c' hc' => by have := hok c' (List.mem_cons_of_mem c hc'); omega) hbad'
      simpa [List.foldlM, hp'] using this

end Day04

/-! ## Day 05 (`day05.rs`): seed/almanac interval remapping -/

namespace Day05

/-- `Entry`: a source range `[start, end]` with its destination start.
The source field `end` is renamed `stop` (`end` is a Lean keyword). -/
structure Entry where
  start : Nat
  stop : Nat
  destinationStart : Nat
deriving DecidableEq

/-- `Entry::cmp_to`. -/
def Entry.cmpTo (e : Entry) (val : Nat) : Ordering :=
  if e.start > val then .gt
  else if e.start ≤ val ∧ val ≤ e.stop then .eq
  else .lt

/-- Loop of Rust's `slice::binary_search_by` (`left`/`right` bounds, probe at
`left + (right - left)/2`, `Ok` exactly when the comparator says `Equal`).
The fuel only bounds the loop; `arr.length + 1` iterations always suffice. -/
def binarySearchGo (f : Entry → Ordering) (arr : List Entry) :
    Nat → Nat → Nat → Except Nat Nat
  | 0, left, _ => .error left
  | fuel + 1, left, right =>
    if left < right then
      -- the probe index is `mid = left + size / 2` with `size = right - left`
      match f (arr.getD (left + (right - left) / 2) ⟨0, 0, 0⟩) with
      | .lt => binarySearchGo f arr fuel (left + (right - left) / 2 + 1) right
      | .gt => binarySearchGo f arr fuel left (left + (right - left) / 2)
      | .eq => .ok (left + (right - left) / 2)
    else .error left

/-- `slice::binary_search_by`. -/
def binarySearchBy (arr : List Entry) (f : Entry → Ordering) : Except Nat Nat :=
  binarySearchGo f arr (arr.length + 1) 0 arr.length

/-- The per-map lookup used by `process_lowest_location` (via `Entry::cmp_to`)
and, with an identical inline comparator, by the `scan` closure of
`process_lowest_location_pt2_mt`: on `Ok(idx)` remap `val` by the entry's
offset, otherwise keep `val`. -/
def applyMap (map : List Entry) (val : Nat) : Nat :=
  match binarySearchBy map (fun e => e.cmpTo val) with
  | .ok idx =>
    let e := map.getD idx ⟨0, 0, 0⟩
    add64 e.destinationStart (val - e.start)
  | .error _ => val

/-- `process_lowest_location` (part 1): thread every seed through every map in
order, folding with `min` from `u64::MAX`. -/
def processLowestLocation (seeds : List Nat) (almanac : List (List Entry)) : Nat :=
  seeds.foldl
    (fun location seed => min location (almanac.foldl (fun v map => applyMap map v) seed))
    (2 ^ 64 - 1)

/-- The list of intermediate values produced by the `scan` in
`process_lowest_location_pt2_mt` (one value per map). -/
def scanVals (almanac : List (List Entry)) (seed : Nat) : List Nat :=
  match almanac with
  | [] => []
  | m :: ms => let v := applyMap m seed; v :: scanVals ms v

/-- `scan(..).last().unwrap()` of the part-2 pipeline: `none` models the
panic of `.unwrap()` when the almanac is empty. -/
def pipelineMt (almanac : List (List Entry)) (seed : Nat) : Option Nat :=
  (scanVals almanac seed).getLast?

/-- `par_chunks(2)`: pairs of consecutive seeds; an odd trailing chunk makes
the closure index `a[1]` out of bounds (`none`). -/
def chunks2 : List Nat → Option (List (Nat × Nat))
  | [] => some []
  | [_] => none
  | a :: b :: rest => (chunks2 rest).map ((a, b) :: ·)

/-- The seed range `a[0]..a[0] + a[1]` (with `u64` wrap-around in the sum). -/
def rangeSeeds (a b : Nat) : List Nat := List.range' a (add64 a b - a)

/-- `process_lowest_location_pt2_mt`: expand every pair into its seed range,
map each seed through the scan pipeline, and reduce with `min`
(`.min().unwrap()` panics — `none` — when there is no seed at all). -/
def processLowestLocationPt2Mt (seeds : List Nat) (almanac : List (List Entry)) :
    Option Nat := do
  let prs ← chunks2 seeds
  let allSeeds := prs.flatMap fun p => rangeSeeds p.1 p.2
  let vals ← allSeeds.mapM (pipelineMt almanac)
  vals.min?

/-- Specification-side pipeline (from the claim's words): the value of a seed
after threading it through every map of the almanac in order. -/
def seqApply (almanac : List (List Entry)) (seed : Nat) : Nat :=
  almanac.foldl (fun v map => applyMap map v) seed

/-- Specification-side part-2 answer (from the claim's words): the minimum,
over every seed in every `(start, length)` range, of the threaded value. -/
def seqLowest (prs : List (Nat × Nat)) (almanac : List (List Entry)) : Option Nat :=
  ((prs.flatMap fun p => rangeSeeds p.1 p.2).map (seqApply almanac)).min?

/-- Partitioned (data-parallel) part-2 answer: reduce the per-part minima by
`min`; parts with no seed contribute nothing. -/
def partLowest (parts : List (List (Nat × Nat))) (almanac : List (List Entry)) :
    Option Nat :=
  (parts.filterMap fun part => seqLowest part almanac).min?

theorem scanVals_ne_nil (m : List Entry) (ms : List (List Entry)) (seed : Nat) :
    scanVals (m :: ms) seed ≠ [] := by
  simp [scanVals]

theorem getLast?_cons_of_ne_nil {a : Nat} {l : List Nat} (h : l ≠ []) :
    (a :: l).getLast? = l.getLast? := by
  cases l with
  | nil => exact absurd rfl h
  | cons b t => simp [List.getLast?_cons_cons]

theorem pipelineMt_eq_seqApply (almanac : List (List Entry)) (h : almanac ≠ [])
    (seed : Nat) : pipelineMt almanac seed = some (seqApply almanac seed) := by
  induction almanac generalizing seed with
  | nil => exact absurd rfl h
  | cons m ms ih =>
    cases ms with
    | nil => rfl
    | cons m' ms' =>
      have h1 : pipelineMt (m :: m' :: ms') seed =
          pipelineMt (m' :: ms') (applyMap m seed) := by
        show (scanVals (m :: m' :: ms') seed).getLast? = _
        rw [show scanVals (m :: m' :: ms') seed =
              applyMap m seed :: scanVals (m' :: ms') (applyMap m seed) from rfl]
        exact getLast?_cons_of_ne_nil (scanVals_ne_nil m' ms' (applyMap m seed))
      rw [h1, ih (by simp)]
      rfl

theorem mapM_pipelineMt (almanac : List (List Entry)) (h : almanac ≠ [])
    (xs : List Nat) : xs.mapM (pipelineMt almanac) = some (xs.map (seqApply almanac)) := by
  induction xs with
  | nil => rfl
  | cons x l ih =>
    rw [List.mapM_cons, pipelineMt_eq_seqApply almanac h, ih]
    rfl

/-- `min`-combination of two optional minima. -/
def combineMin : Option Nat → Option Nat → Option Nat
  | none, y => y
  | some a, none => some a
  | some a, some b => some (min a b)

theorem min?_append (xs ys : List Nat) :
    (xs ++ ys).min? = combineMin xs.min? ys.min? := by
  induction xs with
  | nil =>
    cases hys : ys.min? <;> simp [combineMin, hys]
  | cons a l ih =>
    rw [List.cons_append, List.min?_cons, List.min?_cons, ih]
    cases hl : l.min? <;> cases hys : ys.min? <;>
      simp [combineMin, Option.elim, Nat.min_assoc]

theorem seqLowest_append (p : List (Nat × Nat)) (ps : List (Nat × Nat))
    (almanac : List (List Entry)) :
    seqLowest (p ++ ps) almanac =
      combineMin (seqLowest p almanac) (seqLowest ps almanac) := by
  unfold seqLowest
  rw [List.flatMap_append, List.map_append, min?_append]

theorem partLowest_eq_seqLowest (parts : List (List (Nat × Nat)))
    (almanac : List (List Entry)) :
    partLowest parts almanac = seqLowest parts.flatten almanac := by
  induction parts with
  | nil => rfl
  | cons p ps ih =>
    rw [List.flatten_cons, seqLowest_append]
    unfold partLowest
    rw [List.filterMap_cons]
    cases hp : seqLowest p almanac with
    | none =>
      rw [show combineMin none (seqLowest ps.flatten almanac) =
            seqLowest ps.flatten almanac from rfl]
      rw [← ih]
      rfl
    | some v =>
      rw [List.min?_cons]
      have : (List.filterMap (fun part => seqLowest part almanac) ps).min? =
          seqLowest ps.flatten almanac := ih
      rw [this]
      cases hrest : seqLowest ps.flatten almanac <;>
        simp [combineMin, Option.elim]

theorem binarySearchGo_ok {f : Entry → Ordering} {arr : List Entry} :
    ∀ {fuel left right idx : Nat}, right ≤ arr.length →
      binarySearchGo f arr fuel left right = .ok idx →
      idx < arr.length ∧ f (arr.getD idx ⟨0, 0, 0⟩) = .eq := by
  intro fuel
  induction fuel with
  | zero => intro left right idx _ h; exact absurd h (by simp [binarySearchGo])
  | succ m ih =>
    intro left right idx hr h
    rw [binarySearchGo] at h
    by_cases hlr : left < right
    · rw [if_pos hlr] at h
      rcases hcmp : f (arr.getD (left + (right - left) / 2) ⟨0, 0, 0⟩) with _ | _ | _ <;>
        rw [hcmp] at h
      · exact ih hr h
      · have hmid : left + (right - left) / 2 < arr.length := by omega
        cases h
        exact ⟨hmid, hcmp⟩
      · exact ih (by omega) h
    · rw [if_neg hlr] at h
      exact absurd h (by simp)

theorem binarySearchBy_ok {arr : List Entry} {f : Entry → Ordering} {idx : Nat}
    (h : binarySearchBy arr f = .ok idx) :
    idx < arr.length ∧ f (arr.getD idx ⟨0, 0, 0⟩) = .eq :=
  binarySearchGo_ok le_rfl h

theorem cmpTo_eq_iff {e : Entry} {val : Nat} :
    e.cmpTo val = .eq ↔ e.start ≤ val ∧ val ≤ e.stop := by
  unfold Entry.cmpTo
  by_cases h1 : e.start > val
  · rw [if_pos h1]; constructor
    · intro h; cases h
    · intro h; omega
  · rw [if_neg h1]
    by_cases h2 : e.start ≤ val ∧ val ≤ e.stop
    · rw [if_pos h2]; simp [h2]
    · rw [if_neg h2]; constructor
      · intro h; cases h
      · intro h; exact absurd h h2

theorem applyMap_identity {map : List Entry} {v : Nat} (hv : v < 2 ^ 64)
    (hid : ∀ e ∈ map, e.destinationStart = e.start) : applyMap map v = v := by
  unfold applyMap
  cases hbs : binarySearchBy map (fun e => e.cmpTo v) with
  | error i => rfl
  | ok idx =>
    obtain ⟨hlt, heq⟩ := binarySearchBy_ok hbs
    have hmem : map.getD idx ⟨0, 0, 0⟩ ∈ map := by
      rw [List.getD_eq_getElem map ⟨0, 0, 0⟩ hlt]
      exact List.getElem_mem hlt
    have hdest := hid _ hmem
    obtain ⟨hle, _⟩ := cmpTo_eq_iff.mp heq
    show add64 (map.getD idx ⟨0, 0, 0⟩).destinationStart (v - (map.getD idx ⟨0, 0, 0⟩).start) = v
    rw [hdest]
    unfold add64
    have : (map.getD idx ⟨0, 0, 0⟩).start + (v - (map.getD idx ⟨0, 0, 0⟩).start) = v := by omega
    rw [this, Nat.mod_eq_of_lt hv]

end Day05

end Aoc

/-- **C7.** For every value `v` (a `u64`) and every almanac map whose entries
are identity entries (`destination_start = start`), the interval-remap lookup
used by `process_lowest_location` maps `v` to `v`, and hence applying the
lookup twice through such a map gives the same result as applying it once. -/
theorem c7_identity_map_lookup (map : List Aoc.Day05.Entry) (v : Nat)
    (hv : v < 2 ^ 64) (hid : ∀ e ∈ map, e.destinationStart = e.start) :
    Aoc.Day05.applyMap map v = v ∧
      Aoc.Day05.applyMap map (Aoc.Day05.applyMap map v) = Aoc.Day05.applyMap map v := by
  have h1 := Aoc.Day05.applyMap_identity hv hid
  refine ⟨h1, ?_⟩
  rw [h1]
  exact h1

/-- Witness for C7: a concrete identity map and value. -/
theorem c7_identity_map_lookup_witness :
    Aoc.Day05.applyMap [⟨5, 10, 5⟩] 7 = 7 ∧
      Aoc.Day05.applyMap [⟨5, 10, 5⟩] (Aoc.Day05.applyMap [⟨5, 10, 5⟩] 7) =
        Aoc.Day05.applyMap [⟨5, 10, 5⟩] 7 :=
  c7_identity_map_lookup [⟨5, 10, 5⟩] 7 (by decide)
    (by intro e he; simp at he; rw [he])

/-- **C5 (amended).** For every seed list of even positive length whose ranges
contain at least one seed, and every *non-empty* almanac, the parallel part-2
search equals the minimum over every seed in every `(start, length)` range of
the seed's value threaded through every map in order, and the same value is
obtained by any partitioning of the chunk list into slices whose per-slice
minima are reduced with `min` (the map-reduce has a commutative reduction). -/
theorem c5_pt2_mt_equals_sequential_min (seeds : List Nat)
    (prs : List (Nat × Nat)) (almanac : List (List Aoc.Day05.Entry))
    (parts : List (List (Nat × Nat)))
    (hchunks : Aoc.Day05.chunks2 seeds = some prs)
    (hpos : seeds ≠ [])
    (hseeds : (prs.flatMap fun p => Aoc.Day05.rangeSeeds p.1 p.2) ≠ [])
    (halm : almanac ≠ [])
    (hjoin : parts.flatten = prs) :
    Aoc.Day05.processLowestLocationPt2Mt seeds almanac =
        Aoc.Day05.seqLowest prs almanac ∧
      Aoc.Day05.processLowestLocationPt2Mt seeds almanac =
        Aoc.Day05.partLowest parts almanac := by
  have hmain : Aoc.Day05.processLowestLocationPt2Mt seeds almanac =
      Aoc.Day05.seqLowest prs almanac := by
    unfold Aoc.Day05.processLowestLocationPt2Mt
    rw [hchunks]
    show ((prs.flatMap fun p => Aoc.Day05.rangeSeeds p.1 p.2).mapM
        (Aoc.Day05.pipelineMt almanac)).bind (·.min?) = _
    rw [Aoc.Day05.mapM_pipelineMt almanac halm]
    rfl
  refine ⟨hmain, ?_⟩
  rw [hmain, Aoc.Day05.partLowest_eq_seqLowest, hjoin]

/-- Witness for C5 at the seed pairs and almanac of the day05 unit test shape:
seeds `[79, 2, 55, 2]`, a one-map almanac, split into two slices. -/
theorem c5_pt2_mt_equals_sequential_min_witness :
    Aoc.Day05.processLowestLocationPt2Mt [79, 2, 55, 2] [[⟨50, 97, 52⟩]] =
        Aoc.Day05.seqLowest [(79, 2), (55, 2)] [[⟨50, 97, 52⟩]] ∧
      Aoc.Day05.processLowestLocationPt2Mt [79, 2, 55, 2] [[⟨50, 97, 52⟩]] =
        Aoc.Day05.partLowest [[(79, 2)], [(55, 2)]] [[⟨50, 97, 52⟩]] :=
  c5_pt2_mt_equals_sequential_min [79, 2, 55, 2] [(79, 2), (55, 2)] [[⟨50, 97, 52⟩]]
    [[(79, 2)], [(55, 2)]] (by decide) (by decide) (by decide) (by decide) (by decide)

/-- **C5 counterexample.** As stated the claim quantifies over *every* almanac,
but on the empty almanac the pipeline's `.scan(..).last().unwrap()` panics
(`none`), while the claimed value — the minimum of each seed threaded through
every (i.e. zero) maps — is `some 0` for seeds `[0, 1]`. -/
theorem c5_pt2_mt_empty_almanac_counterexample :
    Aoc.Day05.processLowestLocationPt2Mt [0, 1] [] = none ∧
      Aoc.Day05.seqLowest [(0, 1)] [] = some 0 ∧
      Aoc.Day05.chunks2 [0, 1] = some [(0, 1)] := by
  refine ⟨rfl, ?_, rfl⟩
  decide

/-- **C9.** For every slice of scratchcards with sequential ids starting at 1:
if every card satisfies `id + matches ≤ number of cards`, `process_card_pile`
performs no out-of-bounds index into the occurrence array and returns a total
(`isSome`); if some card's matches extend past the last card, the indexing
panics (`none`). -/
theorem c9_process_card_pile_bounds (cards : List Aoc.Day04.Scratchcard)
    (hseq : Aoc.Day04.SeqIdsFrom 0 cards) :
    ((∀ c ∈ cards, c.id + c.nMatches ≤ cards.length) →
      (Aoc.Day04.processCardPile cards).isSome) ∧
    ((∃ c ∈ cards, cards.length < c.id + c.nMatches) →
      Aoc.Day04.processCardPile cards = none) := by
  have hids := Aoc.Day04.seqIdsFrom_mem hseq
  constructor
  · intro hbound
    have := @Aoc.Day04.pileFold_isSome cards
      (List.replicate cards.length 1)
      (fun c hc => by
        have h1 := hids c hc
        have h2 := hbound c hc
        simp only [List.length_replicate]
        omega)
    simpa [Aoc.Day04.processCardPile] using this
  · intro hbad
    have := @Aoc.Day04.pileFold_none cards
      (List.replicate cards.length 1)
      (fun c hc => by
        have h1 := hids c hc
        simp only [List.length_replicate]
        omega)
      (by
        obtain ⟨c, hc, hb⟩ := hbad
        exact ⟨c, hc, by simpa using hb⟩)
    simp [Aoc.Day04.processCardPile, this]

/-- Witness for C9: a concrete in-bounds pile and a concrete out-of-bounds pile. -/
theorem c9_process_card_pile_bounds_witness :
    (Aoc.Day04.processCardPile [⟨1, 1⟩, ⟨2, 0⟩]).isSome ∧
      Aoc.Day04.processCardPile [⟨1, 5⟩, ⟨2, 0⟩] = none :=
  ⟨(c9_process_card_pile_bounds [⟨1, 1⟩, ⟨2, 0⟩] ⟨rfl, rfl, trivial⟩).1 (by decide),
   (c9_process_card_pile_bounds [⟨1, 5⟩, ⟨2, 0⟩] ⟨rfl, rfl, trivial⟩).2 (by decide)⟩

/-- **C10.** For every non-empty list of integers, `extrapolate_back_rec` and
`extrapolate_front_rec` terminate and return a value: each recursive call
operates on the pairwise-difference list (one element shorter), the recursion
stops when all differences are zero, and the recursion depth is bounded by the
length of the input list — with fuel equal to the input length both fueled
embeddings produce a value. -/
theorem c10_extrapolate_terminates (data : List Int) (h : data ≠ []) :
    (Aoc.Day09.extrapolateBackRec data.length data).isSome ∧
      (Aoc.Day09.extrapolateFrontRec data.length data).isSome :=
  ⟨Aoc.Day09.extrapolateBackRec_isSome data.length data h le_rfl,
   Aoc.Day09.extrapolateFrontRec_isSome data.length data h le_rfl⟩

/-- Witness for C10 at the concrete history from the day09 unit test. -/
theorem c10_extrapolate_terminates_witness :
    ([10, 13, 16, 21, 30, 45] : List Int) ≠ [] ∧
      ((Aoc.Day09.extrapolateBackRec 6 [10, 13, 16, 21, 30, 45]).isSome ∧
        (Aoc.Day09.extrapolateFrontRec 6 [10, 13, 16, 21, 30, 45]).isSome) :=
  ⟨by decide, c10_extrapolate_terminates [10, 13, 16, 21, 30, 45] (by decide)⟩

namespace Aoc

/-! ## Day 06 (`day06.rs`): quadratic-root counting for the boat races -/

namespace Day06

/-- `Race`: a time limit and a distance record (`u64`). -/
structure Race where
  time : Nat
  distance : Nat
deriving DecidableEq

/-- `parse_input`: take the `Time:` and `Distance:` lines (`.unwrap()` on a
missing line or prefix aborts), parse their whitespace-separated numbers with
`flat_map(str::parse)` (bad tokens silently dropped), and zip them. -/
def parseInput (s : List Char) : Option (List Race) := do
  let ls := linesOf s
  let l1 ← ls.head?
  let tstr ← stripPre "Time:".toList l1
  let l2 ← ls[1]?
  let dstr ← stripPre "Distance:".toList l2
  let times := (wordsOf tstr).filterMap (parseUInt 64)
  let dists := (wordsOf dstr).filterMap (parseUInt 64)
  pure ((times.zip dists).map fun p => ⟨p.1, p.2⟩)

/-- `count_record_beating_ways`: the closed-form quadratic-root count,
computed in (exactly modelled) `f64` arithmetic:
`delta_sqrt = ((time*time - 4*distance) as f64).sqrt()`,
`t1 = ((time as f64 + delta_sqrt) / 2.0 - 1.0).ceil() as u64`,
`t2 = ((time as f64 - delta_sqrt) / 2.0 + 1.0).floor() as u64`,
result `t1 - t2 + 1` in `u64` arithmetic. -/
def countRecordBeatingWays (r : Race) : Nat :=
  let delta := sub64 (mul64 r.time r.time) (mul64 4 r.distance)
  let deltaSqrt := fsqrt (fofNat delta)
  let t1 := castU64 (fceil (fsub (fdiv2 (fadd (fofNat r.time) deltaSqrt)) (fofNat 1)))
  let t2 := castU64 (ffloor (fadd (fdiv2 (fsub (fofNat r.time) deltaSqrt)) (fofNat 1)))
  add64 (sub64 t1 t2) 1

/-- Specification-side brute force (from the claim's words): the number of
integer hold times `t` in `0..=T` with `t * (T - t) > D`. -/
def countWaysBrute (T D : Nat) : Nat :=
  (List.range (T + 1)).countP fun t => decide (D < t * (T - t))

end Day06

end Aoc

/-- Exhaustive check of C6 over the small range `T ≤ 16`: for every record
that is beatable (and with non-negative discriminant, `4*D ≤ T*T`), the
closed-form count equals the brute-force count. -/
def c6check : Bool :=
  (List.range 17).all fun T =>
    (List.range (T * T / 4 + 1)).all fun D =>
      !((List.range (T + 1)).any fun t => decide (D < t * (T - t))) ||
        (Aoc.Day06.countRecordBeatingWays ⟨T, D⟩ == Aoc.Day06.countWaysBrute T D)

/-- **C6.** For every race with time `T` and record `D` drawn from a small
range (here `T ≤ 16`, with `T*T ≥ 4*D` and the record beatable),
`count_record_beating_ways` — computed in exactly-modelled `f64` arithmetic —
equals the exhaustive brute-force count of hold times `t ∈ 0..=T` with
`t*(T-t) > D`. -/
theorem c6_quadratic_count_matches_brute_force (T D : Nat) (hT : T ≤ 16)
    (hD : 4 * D ≤ T * T) (hbeat : ∃ t, t ≤ T ∧ D < t * (T - t)) :
    Aoc.Day06.countRecordBeatingWays ⟨T, D⟩ = Aoc.Day06.countWaysBrute T D := by
  have hch : c6check = true := by decide
  have hTmem : T ∈ List.range 17 := List.mem_range.mpr (by omega)
  have h1 : ((List.range (T * T / 4 + 1)).all fun D =>
      !((List.range (T + 1)).any fun t => decide (D < t * (T - t))) ||
        (Aoc.Day06.countRecordBeatingWays ⟨T, D⟩ == Aoc.Day06.countWaysBrute T D)) = true :=
    (List.all_eq_true.mp hch) T hTmem
  have hDmem : D ∈ List.range (T * T / 4 + 1) := List.mem_range.mpr (by omega)
  have h2 : (!((List.range (T + 1)).any fun t => decide (D < t * (T - t))) ||
      (Aoc.Day06.countRecordBeatingWays ⟨T, D⟩ == Aoc.Day06.countWaysBrute T D)) = true :=
    (List.all_eq_true.mp h1) D hDmem
  obtain ⟨t, ht1, ht2⟩ := hbeat
  have hany : ((List.range (T + 1)).any fun t => decide (D < t * (T - t))) = true :=
    List.any_eq_true.mpr ⟨t, List.mem_range.mpr (by omega), by simpa using ht2⟩
  simp only [hany, Bool.not_true, Bool.false_or] at h2
  exact eq_of_beq h2

/-- Witness for C6 at the first race of the day06 unit test, `(T, D) = (7, 9)`. -/
theorem c6_quadratic_count_matches_brute_force_witness :
    Aoc.Day06.countRecordBeatingWays ⟨7, 9⟩ = Aoc.Day06.countWaysBrute 7 9 :=
  c6_quadratic_count_matches_brute_force 7 9 (by decide) (by decide)
    ⟨3, by decide, by decide⟩

namespace Aoc

/-! ## Day 07 (`day07.rs`): Camel Cards hand ranking -/

namespace Day07

/-- `Card`: the `repr(u8)` enum, in declaration order `A, K, Q, J, T, N(u8),
Joker` (discriminants 0..6); the `N` payload is a `u8`. -/
inductive Card
  | A | K | Q | J | T
  | N (n : Fin 256)
  | Joker
deriving DecidableEq

/-- `Card::discriminant` (the `repr(u8)` tag read by the unsafe cast). -/
def Card.disc : Card → Nat
  | .A => 0 | .K => 1 | .Q => 2 | .J => 3 | .T => 4 | .N _ => 5 | .Joker => 6

/-- `Ord for Card`: smaller discriminants are the *higher* cards; two `N`
cards compare by payload; the remaining same-discriminant arm of the source
is `unreachable!` (distinct cards with equal discriminants are both `N`). -/
def cardCmp (a b : Card) : Ordering :=
  if a.disc < b.disc then .gt
  else if b.disc < a.disc then .lt
  else if a = b then .eq
  else
    match a, b with
    | .N x, .N y => compare x.val y.val
    | _, _ => .eq

/-- Numeric key realizing the `Card` order: `(6 - disc) * 256 + payload`. -/
def key : Card → Nat
  | .A => 1536 | .K => 1280 | .Q => 1024 | .J => 768 | .T => 512
  | .N x => 256 + x.val
  | .Joker => 0

theorem cardCmp_gt_iff : ∀ a b : Card, cardCmp a b = .gt ↔ key b < key a := by
  have hNN : ∀ x y : Fin 256, (cardCmp (.N x) (.N y) = .gt ↔ key (.N y) < key (.N x)) := by
    intro x y
    by_cases hxy : x = y
    · subst hxy
      simp [cardCmp, key]
    · have hne : (Card.N x) ≠ (Card.N y) := by simpa using hxy
      have hcc : cardCmp (.N x) (.N y) = compare x.val y.val := by
        simp [cardCmp, Card.disc, hne]
      rw [hcc, Nat.compare_eq_gt]
      simp only [key]
      omega
  intro a b
  rcases a with _ | _ | _ | _ | _ | x | _ <;> rcases b with _ | _ | _ | _ | _ | y | _ <;>
    first
      | exact hNN x y
      | (simp [cardCmp, key, Card.disc]) <;> omega

theorem key_inj : ∀ a b : Card, key a = key b → a = b := by
  have hNN : ∀ x y : Fin 256, key (.N x) = key (.N y) → (Card.N x) = (Card.N y) := by
    intro x y h
    simp only [key] at h
    exact congrArg Card.N (Fin.ext (by omega))
  intro a b
  rcases a with _ | _ | _ | _ | _ | x | _ <;> rcases b with _ | _ | _ | _ | _ | y | _ <;>
    first
      | exact hNN x y
      | (intro h; simp only [key] at h; first | rfl | exact absurd h (by omega))

/-- The `≤` relation induced by the `Card` comparator (used by `sort`). -/
def cardLe (a b : Card) : Prop := cardCmp a b ≠ .gt

instance : DecidableRel cardLe := fun a b =>
  inferInstanceAs (Decidable (cardCmp a b ≠ .gt))

theorem cardLe_iff_key {a b : Card} : cardLe a b ↔ key a ≤ key b := by
  unfold cardLe
  constructor
  · intro h
    by_contra hcon
    exact h ((cardCmp_gt_iff a b).mpr (by omega))
  · intro h hcon
    have := (cardCmp_gt_iff a b).mp hcon
    omega

instance : IsTotal Card cardLe :=
  ⟨fun a b => by
    rw [cardLe_iff_key, cardLe_iff_key]
    omega⟩

instance : IsTrans Card cardLe :=
  ⟨fun a b c h1 h2 => by
    rw [cardLe_iff_key] at *
    omega⟩

/-- `slice::sort` on cards: a stable comparator sort; insertion sort is
stable for the same total order, so it computes the identical result. -/
def sortCards (l : List Card) : List Card := l.insertionSort cardLe

/-- `HandType`, in declaration (and therefore `Ord`) order. -/
inductive HandType
  | HighCard | OnePair | TwoPair | ThreeOfKind | FullHouse | FourOfKind | FiveOfKind
deriving DecidableEq

/-- The derived `Ord for HandType` (declaration order). -/
def HandType.rank : HandType → Nat
  | .HighCard => 0 | .OnePair => 1 | .TwoPair => 2 | .ThreeOfKind => 3
  | .FullHouse => 4 | .FourOfKind => 5 | .FiveOfKind => 6

/-- `HandType::new`: sort a copy of the 5 cards, count the adjacent equal
pairs of the sorted array, and for counts 2 and 3 disambiguate by comparing
the first and last equal pair (the source's `next().unwrap()` /
`next_back().unwrap()` are modelled by `head?`/`getLast?`; the `unreachable!`
arm for counts `≥ 5` is `none`). -/
def handTypeNew (cards : List Card) : Option HandType :=
  let sorted := sortCards cards
  let pairs := (sorted.zip sorted.tail).filter fun p => decide (p.1 = p.2)
  match pairs.length with
  | 0 => some .HighCard
  | 1 => some .OnePair
  | 2 => do
    let f ← pairs.head?
    let l ← pairs.getLast?
    pure (if f ≠ l then .TwoPair else .ThreeOfKind)
  | 3 => do
    let f ← pairs.head?
    let l ← pairs.getLast?
    pure (if f ≠ l then .FullHouse else .FourOfKind)
  | 4 => some .FiveOfKind
  | _ => none

/-- `Hand`: the 5 cards (modelled as a list of length 5), the hand type and
the bid. -/
structure Hand where
  cards : List Card
  hType : HandType
  bid : Nat
deriving DecidableEq

/-- The card replacement of `change_to_joker_hand`: every `J` becomes `Joker`. -/
def jokerize (c : Card) : Card := if c = .J then .Joker else c

/-- The `match (count_jokers, self.h_type)` table of `change_to_joker_hand`;
`none` models the `unreachable!` arms. -/
def jokerNewType (countJokers : Nat) (t : HandType) : Option HandType :=
  match countJokers, t with
  | 0, _ => some t
  | 1, .HighCard => some .OnePair
  | 1, .OnePair => some .ThreeOfKind
  | 1, .TwoPair => some .FullHouse
  | 1, .ThreeOfKind => some .FourOfKind
  | 1, .FourOfKind => some .FiveOfKind
  | 1, _ => none
  | 2, .OnePair => some .ThreeOfKind
  | 2, .TwoPair => some .FourOfKind
  | 2, .FullHouse => some .FiveOfKind
  | 2, _ => none
  | 3, .ThreeOfKind => some .FourOfKind
  | 3, .FullHouse => some .FiveOfKind
  | 3, _ => none
  | 4, _ => some .FiveOfKind
  | _, .FiveOfKind => some .FiveOfKind
  | _, _ => none

/-- `Hand::change_to_joker_hand`: replace `J` cards by `Joker`, count the
jokers, and update the hand type through the table. -/
def changeToJokerHand (h : Hand) : Option Hand :=
  let cards := h.cards.map jokerize
  (jokerNewType (cards.count .Joker) h.hType).map fun t => ⟨cards, t, h.bid⟩

theorem count_jokerize (cards : List Card) (hnoJ : Card.Joker ∉ cards) :
    (cards.map jokerize).count .Joker = cards.count .J := by
  induction cards with
  | nil => rfl
  | cons c l ih =>
    have hc : c ≠ Card.Joker := fun h => hnoJ (h ▸ List.mem_cons_self c l)
    have ihl := ih fun h => hnoJ (List.mem_cons_of_mem c h)
    by_cases hcJ : c = Card.J
    · subst hcJ
      simp [jokerize, List.count_cons, ihl]
    · have : jokerize c = c := by simp [jokerize, hcJ]
      simp [List.map_cons, List.count_cons, this, hcJ, ihl]
      intro h
      exact absurd h hc

theorem list_len5 {α : Type} (l : List α) (h : l.length = 5) :
    ∃ a b c d e, l = [a, b, c, d, e] := by
  rcases l with _ | ⟨a, l⟩; · simp at h
  rcases l with _ | ⟨b, l⟩; · simp at h
  rcases l with _ | ⟨c, l⟩; · simp at h
  rcases l with _ | ⟨d, l⟩; · simp at h
  rcases l with _ | ⟨e, l⟩; · simp at h
  rcases l with _ | ⟨f, l⟩
  · exact ⟨a, b, c, d, e, rfl⟩
  · simp at h

end Day07

end Aoc

namespace Aoc

namespace Day07

theorem eq_of_key_squeeze {x y z : Card} (h1 : key x ≤ key y) (h2 : key y ≤ key z)
    (hxz : x = z) : x = y :=
  key_inj x y (by have hk := congrArg key hxz; omega)

theorem changeToJokerHand_isSome (cards : List Card) (bid : Nat) (t : HandType)
    (hlen : cards.length = 5) (hnoJ : Card.Joker ∉ cards)
    (ht : handTypeNew cards = some t) :
    (changeToJokerHand ⟨cards, t, bid⟩).isSome := by
  have hperm : (sortCards cards).Perm cards := List.perm_insertionSort cardLe cards
  have hlen5 : (sortCards cards).length = 5 := by rw [hperm.length_eq, hlen]
  have hsorted : List.Sorted cardLe (sortCards cards) :=
    List.sorted_insertionSort cardLe cards
  obtain ⟨a, b, c, d, e, hs⟩ := list_len5 _ hlen5
  have hcj : (cards.map jokerize).count .Joker = List.count Card.J [a, b, c, d, e] := by
    rw [count_jokerize cards hnoJ, ← hperm.count_eq, hs]
  have hgoal : ∀ n t', (cards.map jokerize).count .Joker = n →
      (jokerNewType n t').isSome →
      (changeToJokerHand ⟨cards, t', bid⟩).isSome := by
    intro n t' hn hsome
    unfold changeToJokerHand
    simp only [hn]
    simpa using hsome
  rw [hs] at hsorted
  obtain ⟨ha4, hrest1⟩ := List.sorted_cons.mp hsorted
  obtain ⟨hb3, hrest2⟩ := List.sorted_cons.mp hrest1
  obtain ⟨hc2, hrest3⟩ := List.sorted_cons.mp hrest2
  obtain ⟨hd1, -⟩ := List.sorted_cons.mp hrest3
  have kab : key a ≤ key b := cardLe_iff_key.mp (ha4 b (by simp))
  have kac : key a ≤ key c := cardLe_iff_key.mp (ha4 c (by simp))
  have kad : key a ≤ key d := cardLe_iff_key.mp (ha4 d (by simp))
  have kae : key a ≤ key e := cardLe_iff_key.mp (ha4 e (by simp))
  have kbc : key b ≤ key c := cardLe_iff_key.mp (hb3 c (by simp))
  have kbd : key b ≤ key d := cardLe_iff_key.mp (hb3 d (by simp))
  have kbe : key b ≤ key e := cardLe_iff_key.mp (hb3 e (by simp))
  have kcd : key c ≤ key d := cardLe_iff_key.mp (hc2 d (by simp))
  have kce : key c ≤ key e := cardLe_iff_key.mp (hc2 e (by simp))
  have kde : key d ≤ key e := cardLe_iff_key.mp (hd1 e (by simp))
  unfold handTypeNew at ht
  rw [hs] at ht
  by_cases hab : a = b <;> by_cases hbc : b = c <;> by_cases hcd : c = d <;>
    by_cases hde : d = e
  -- pppp: [a,a,a,a,a] / FiveOfKind
  · subst hab
    subst hbc
    subst hcd
    subst hde
    simp only [List.zip_cons_cons, List.tail_cons, List.zip_nil_right, List.filter, decide_True, decide_False, eq_self_iff_true, List.length_cons, List.length_nil, List.head?_cons, List.getLast?_cons_cons, List.getLast?_singleton, Option.bind_eq_bind, Option.some_bind, Option.pure_def, Prod.mk.injEq, ne_eq, not_true, not_false_eq_true, and_self, if_true, if_false, ite_true, ite_false, Option.some.injEq] at ht
    subst ht
    rcases eq_or_ne a Card.J with hJa | hJa
    ·
      exact hgoal 5 _ (by rw [hcj]; simp [List.count_cons, hJa]) (by decide)
    ·
      exact hgoal 0 _ (by rw [hcj]; simp [List.count_cons, hJa]) (by decide)
  -- pppn: [a,a,a,a,e] / FourOfKind
  · subst hab
    subst hbc
    subst hcd
    simp only [List.zip_cons_cons, List.tail_cons, List.zip_nil_right, List.filter, decide_True, decide_False, eq_self_iff_true, List.length_cons, List.length_nil, List.head?_cons, List.getLast?_cons_cons, List.getLast?_singleton, Option.bind_eq_bind, Option.some_bind, Option.pure_def, Prod.mk.injEq, ne_eq, not_true, not_false_eq_true, and_self, if_true, if_false, ite_true, ite_false, Option.some.injEq, hde] at ht
    subst ht
    rcases eq_or_ne a Card.J with hJa | hJa
    ·
      have hKe : e ≠ Card.J := fun h => hde (hJa.trans h.symm)
      exact hgoal 4 _ (by rw [hcj]; simp [List.count_cons, hJa, hKe]) (by decide)
    ·
      rcases eq_or_ne e Card.J with hJe | hJe
      ·
        have hKa : a ≠ Card.J := fun h => hde (h.trans hJe.symm)
        exact hgoal 1 _ (by rw [hcj]; simp [List.count_cons, hJe, hKa]) (by decide)
      ·
        exact hgoal 0 _ (by rw [hcj]; simp [List.count_cons, hJa, hJe]) (by decide)
  -- ppnp: [a,a,a,d,d] / FullHouse
  · subst hab
    subst hbc
    subst hde
    simp only [List.zip_cons_cons, List.tail_cons, List.zip_nil_right, List.filter, decide_True, decide_False, eq_self_iff_true, List.length_cons, List.length_nil, List.head?_cons, List.getLast?_cons_cons, List.getLast?_singleton, Option.bind_eq_bind, Option.some_bind, Option.pure_def, Prod.mk.injEq, ne_eq, not_true, not_false_eq_true, and_self, if_true, if_false, ite_true, ite_false, Option.some.injEq, hcd] at ht
    subst ht
    rcases eq_or_ne a Card.J with hJa | hJa
    ·
      have hKd : d ≠ Card.J := fun h => hcd (hJa.trans h.symm)
      exact hgoal 3 _ (by rw [hcj]; simp [List.count_cons, hJa, hKd]) (by decide)
    ·
      rcases eq_or_ne d Card.J with hJd | hJd
      ·
        have hKa : a ≠ Card.J := fun h => hcd (h.trans hJd.symm)
        exact hgoal 2 _ (by rw [hcj]; simp [List.count_cons, hJd, hKa]) (by decide)
      ·
        exact hgoal 0 _ (by rw [hcj]; simp [List.count_cons, hJa, hJd]) (by decide)
  -- ppnn: [a,a,a,d,e] / ThreeOfKind
  · subst hab
    subst hbc
    have hae : a ≠ e := fun h => hcd (eq_of_key_squeeze kad kde h)
    simp only [List.zip_cons_cons, List.tail_cons, List.zip_nil_right, List.filter, decide_True, decide_False, eq_self_iff_true, List.length_cons, List.length_nil, List.head?_cons, List.getLast?_cons_cons, List.getLast?_singleton, Option.bind_eq_bind, Option.some_bind, Option.pure_def, Prod.mk.injEq, ne_eq, not_true, not_false_eq_true, and_self, if_true, if_false, ite_true, ite_false, Option.some.injEq, hcd, hde] at ht
    subst ht
    rcases eq_or_ne a Card.J with hJa | hJa
    ·
      have hKd : d ≠ Card.J := fun h => hcd (hJa.trans h.symm)
      have hKe : e ≠ Card.J := fun h => hae (hJa.trans h.symm)
      exact hgoal 3 _ (by rw [hcj]; simp [List.count_cons, hJa, hKd, hKe]) (by decide)
    ·
      rcases eq_or_ne d Card.J with hJd | hJd
      ·
        have hKa : a ≠ Card.J := fun h => hcd (h.trans hJd.symm)
        have hKe : e ≠ Card.J := fun h => hde (hJd.trans h.symm)
        exact hgoal 1 _ (by rw [hcj]; simp [List.count_cons, hJd, hKa, hKe]) (by decide)
      ·
        rcases eq_or_ne e Card.J with hJe | hJe
        ·
          have hKa : a ≠ Card.J := fun h => hae (h.trans hJe.symm)
          have hKd : d ≠ Card.J := fun h => hde (h.trans hJe.symm)
          exact hgoal 1 _ (by rw [hcj]; simp [List.count_cons, hJe, hKa, hKd]) (by decide)
        ·
          exact hgoal 0 _ (by rw [hcj]; simp [List.count_cons, hJa, hJd, hJe]) (by decide)
  -- pnpp: [a,a,c,c,c] / FullHouse
  · subst hab
    subst hcd
    subst hde
    simp only [List.zip_cons_cons, List.tail_cons, List.zip_nil_right, List.filter, decide_True, decide_False, eq_self_iff_true, List.length_cons, List.length_nil, List.head?_cons, List.getLast?_cons_cons, List.getLast?_singleton, Option.bind_eq_bind, Option.some_bind, Option.pure_def, Prod.mk.injEq, ne_eq, not_true, not_false_eq_true, and_self, if_true, if_false, ite_true, ite_false, Option.some.injEq, hbc] at ht
    subst ht
    rcases eq_or_ne a Card.J with hJa | hJa
    ·
      have hKc : c ≠ Card.J := fun h => hbc (hJa.trans h.symm)
      exact hgoal 2 _ (by rw [hcj]; simp [List.count_cons, hJa, hKc]) (by decide)
    ·
      rcases eq_or_ne c Card.J with hJc | hJc
      ·
        have hKa : a ≠ Card.J := fun h => hbc (h.trans hJc.symm)
        exact hgoal 3 _ (by rw [hcj]; simp [List.count_cons, hJc, hKa]) (by decide)
      ·
        exact hgoal 0 _ (by rw [hcj]; simp [List.count_cons, hJa, hJc]) (by decide)
  -- pnpn: [a,a,c,c,e] / TwoPair
  · subst hab
    subst hcd
    have hae : a ≠ e := fun h => hbc (eq_of_key_squeeze kac kce h)
    simp only [List.zip_cons_cons, List.tail_cons, List.zip_nil_right, List.filter, decide_True, decide_False, eq_self_iff_true, List.length_cons, List.length_nil, List.head?_cons, List.getLast?_cons_cons, List.getLast?_singleton, Option.bind_eq_bind, Option.some_bind, Option.pure_def, Prod.mk.injEq, ne_eq, not_true, not_false_eq_true, and_self, if_true, if_false, ite_true, ite_false, Option.some.injEq, hbc, hde] at ht
    subst ht
    rcases eq_or_ne a Card.J with hJa | hJa
    ·
      have hKc : c ≠ Card.J := fun h => hbc (hJa.trans h.symm)
      have hKe : e ≠ Card.J := fun h => hae (hJa.trans h.symm)
      exact hgoal 2 _ (by rw [hcj]; simp [List.count_cons, hJa, hKc, hKe]) (by decide)
    ·
      rcases eq_or_ne c Card.J with hJc | hJc
      ·
        have hKa : a ≠ Card.J := fun h => hbc (h.trans hJc.symm)
        have hKe : e ≠ Card.J := fun h => hde (hJc.trans h.symm)
        exact hgoal 2 _ (by rw [hcj]; simp [List.count_cons, hJc, hKa, hKe]) (by decide)
      ·
        rcases eq_or_ne e Card.J with hJe | hJe
        ·
          have hKa : a ≠ Card.J := fun h => hae (h.trans hJe.symm)
          have hKc : c ≠ Card.J := fun h => hde (h.trans hJe.symm)
          exact hgoal 1 _ (by rw [hcj]; simp [List.count_cons, hJe, hKa, hKc]) (by decide)
        ·
          exact hgoal 0 _ (by rw [hcj]; simp [List.count_cons, hJa, hJc, hJe]) (by decide)
  -- pnnp: [a,a,c,d,d] / TwoPair
  · subst hab
    subst hde
    have had : a ≠ d := fun h => hbc (eq_of_key_squeeze kac kcd h)
    simp only [List.zip_cons_cons, List.tail_cons, List.zip_nil_right, List.filter, decide_True, decide_False, eq_self_iff_true, List.length_cons, List.length_nil, List.head?_cons, List.getLast?_cons_cons, List.getLast?_singleton, Option.bind_eq_bind, Option.some_bind, Option.pure_def, Prod.mk.injEq, ne_eq, not_true, not_false_eq_true, and_self, if_true, if_false, ite_true, ite_false, Option.some.injEq, hbc, hcd, had] at ht
    subst ht
    rcases eq_or_ne a Card.J with hJa | hJa
    ·
      have hKc : c ≠ Card.J := fun h => hbc (hJa.trans h.symm)
      have hKd : d ≠ Card.J := fun h => had (hJa.trans h.symm)
      exact hgoal 2 _ (by rw [hcj]; simp [List.count_cons, hJa, hKc, hKd]) (by decide)
    ·
      rcases eq_or_ne c Card.J with hJc | hJc
      ·
        have hKa : a ≠ Card.J := fun h => hbc (h.trans hJc.symm)
        have hKd : d ≠ Card.J := fun h => hcd (hJc.trans h.symm)
        exact hgoal 1 _ (by rw [hcj]; simp [List.count_cons, hJc, hKa, hKd]) (by decide)
      ·
        rcases eq_or_ne d Card.J with hJd | hJd
        ·
          have hKa : a ≠ Card.J := fun h => had (h.trans hJd.symm)
          have hKc : c ≠ Card.J := fun h => hcd (h.trans hJd.symm)
          exact hgoal 2 _ (by rw [hcj]; simp [List.count_cons, hJd, hKa, hKc]) (by decide)
        ·
          exact hgoal 0 _ (by rw [hcj]; simp [List.count_cons, hJa, hJc, hJd]) (by decide)
  -- pnnn: [a,a,c,d,e] / OnePair
  · subst hab
    have had : a ≠ d := fun h => hbc (eq_of_key_squeeze kac kcd h)
    have hae : a ≠ e := fun h => hbc (eq_of_key_squeeze kac kce h)
    have hce : c ≠ e := fun h => hcd (eq_of_key_squeeze kcd kde h)
    simp only [List.zip_cons_cons, List.tail_cons, List.zip_nil_right, List.filter, decide_True, decide_False, eq_self_iff_true, List.length_cons, List.length_nil, List.head?_cons, List.getLast?_cons_cons, List.getLast?_singleton, Option.bind_eq_bind, Option.some_bind, Option.pure_def, Prod.mk.injEq, ne_eq, not_true, not_false_eq_true, and_self, if_true, if_false, ite_true, ite_false, Option.some.injEq, hbc, hcd, hde] at ht
    subst ht
    rcases eq_or_ne a Card.J with hJa | hJa
    ·
      have hKc : c ≠ Card.J := fun h => hbc (hJa.trans h.symm)
      have hKd : d ≠ Card.J := fun h => had (hJa.trans h.symm)
      have hKe : e ≠ Card.J := fun h => hae (hJa.trans h.symm)
      exact hgoal 2 _ (by rw [hcj]; simp [List.count_cons, hJa, hKc, hKd, hKe]) (by decide)
    ·
      rcases eq_or_ne c Card.J with hJc | hJc
      ·
        have hKa : a ≠ Card.J := fun h => hbc (h.trans hJc.symm)
        have hKd : d ≠ Card.J := fun h => hcd (hJc.trans h.symm)
        have hKe : e ≠ Card.J := fun h => hce (hJc.trans h.symm)
        exact hgoal 1 _ (by rw [hcj]; simp [List.count_cons, hJc, hKa, hKd, hKe]) (by decide)
      ·
        rcases eq_or_ne d Card.J with hJd | hJd
        ·
          have hKa : a ≠ Card.J := fun h => had (h.trans hJd.symm)
          have hKc : c ≠ Card.J := fun h => hcd (h.trans hJd.symm)
          have hKe : e ≠ Card.J := fun h => hde (hJd.trans h.symm)
          exact hgoal 1 _ (by rw [hcj]; simp [List.count_cons, hJd, hKa, hKc, hKe]) (by decide)
        ·
          rcases eq_or_ne e Card.J with hJe | hJe
          ·
            have hKa : a ≠ Card.J := fun h => hae (h.trans hJe.symm)
            have hKc : c ≠ Card.J := fun h => hce (h.trans hJe.symm)
            have hKd : d ≠ Card.J := fun h => hde (h.trans hJe.symm)
            exact hgoal 1 _ (by rw [hcj]; simp [List.count_cons, hJe, hKa, hKc, hKd]) (by decide)
          ·
            exact hgoal 0 _ (by rw [hcj]; simp [List.count_cons, hJa, hJc, hJd, hJe]) (by decide)
  -- nppp: [a,b,b,b,b] / FourOfKind
  · subst hbc
    subst hcd
    subst hde
    simp only [List.zip_cons_cons, List.tail_cons, List.zip_nil_right, List.filter, decide_True, decide_False, eq_self_iff_true, List.length_cons, List.length_nil, List.head?_cons, List.getLast?_cons_cons, List.getLast?_singleton, Option.bind_eq_bind, Option.some_bind, Option.pure_def, Prod.mk.injEq, ne_eq, not_true, not_false_eq_true, and_self, if_true, if_false, ite_true, ite_false, Option.some.injEq, hab] at ht
    subst ht
    rcases eq_or_ne a Card.J with hJa | hJa
    ·
      have hKb : b ≠ Card.J := fun h => hab (hJa.trans h.symm)
      exact hgoal 1 _ (by rw [hcj]; simp [List.count_cons, hJa, hKb]) (by decide)
    ·
      rcases eq_or_ne b Card.J with hJb | hJb
      ·
        have hKa : a ≠ Card.J := fun h => hab (h.trans hJb.symm)
        exact hgoal 4 _ (by rw [hcj]; simp [List.count_cons, hJb, hKa]) (by decide)
      ·
        exact hgoal 0 _ (by rw [hcj]; simp [List.count_cons, hJa, hJb]) (by decide)
  -- nppn: [a,b,b,b,e] / ThreeOfKind
  · subst hbc
    subst hcd
    have hae : a ≠ e := fun h => hab (eq_of_key_squeeze kab kbe h)
    simp only [List.zip_cons_cons, List.tail_cons, List.zip_nil_right, List.filter, decide_True, decide_False, eq_self_iff_true, List.length_cons, List.length_nil, List.head?_cons, List.getLast?_cons_cons, List.getLast?_singleton, Option.bind_eq_bind, Option.some_bind, Option.pure_def, Prod.mk.injEq, ne_eq, not_true, not_false_eq_true, and_self, if_true, if_false, ite_true, ite_false, Option.some.injEq, hab, hde] at ht
    subst ht
    rcases eq_or_ne a Card.J with hJa | hJa
    ·
      have hKb : b ≠ Card.J := fun h => hab (hJa.trans h.symm)
      have hKe : e ≠ Card.J := fun h => hae (hJa.trans h.symm)
      exact hgoal 1 _ (by rw [hcj]; simp [List.count_cons, hJa, hKb, hKe]) (by decide)
    ·
      rcases eq_or_ne b Card.J with hJb | hJb
      ·
        have hKa : a ≠ Card.J := fun h => hab (h.trans hJb.symm)
        have hKe : e ≠ Card.J := fun h => hde (hJb.trans h.symm)
        exact hgoal 3 _ (by rw [hcj]; simp [List.count_cons, hJb, hKa, hKe]) (by decide)
      ·
        rcases eq_or_ne e Card.J with hJe | hJe
        ·
          have hKa : a ≠ Card.J := fun h => hae (h.trans hJe.symm)
          have hKb : b ≠ Card.J := fun h => hde (h.trans hJe.symm)
          exact hgoal 1 _ (by rw [hcj]; simp [List.count_cons, hJe, hKa, hKb]) (by decide)
        ·
          exact hgoal 0 _ (by rw [hcj]; simp [List.count_cons, hJa, hJb, hJe]) (by decide)
  -- npnp: [a,b,b,d,d] / TwoPair
  · subst hbc
    subst hde
    have had : a ≠ d := fun h => hab (eq_of_key_squeeze kab kbd h)
    simp only [List.zip_cons_cons, List.tail_cons, List.zip_nil_right, List.filter, decide_True, decide_False, eq_self_iff_true, List.length_cons, List.length_nil, List.head?_cons, List.getLast?_cons_cons, List.getLast?_singleton, Option.bind_eq_bind, Option.some_bind, Option.pure_def, Prod.mk.injEq, ne_eq, not_true, not_false_eq_true, and_self, if_true, if_false, ite_true, ite_false, Option.some.injEq, hab, hcd] at ht
    subst ht
    rcases eq_or_ne a Card.J with hJa | hJa
    ·
      have hKb : b ≠ Card.J := fun h => hab (hJa.trans h.symm)
      have hKd : d ≠ Card.J := fun h => had (hJa.trans h.symm)
      exact hgoal 1 _ (by rw [hcj]; simp [List.count_cons, hJa, hKb, hKd]) (by decide)
    ·
      rcases eq_or_ne b Card.J with hJb | hJb
      ·
        have hKa : a ≠ Card.J := fun h => hab (h.trans hJb.symm)
        have hKd : d ≠ Card.J := fun h => hcd (hJb.trans h.symm)
        exact hgoal 2 _ (by rw [hcj]; simp [List.count_cons, hJb, hKa, hKd]) (by decide)
      ·
        rcases eq_or_ne d Card.J with hJd | hJd
        ·
          have hKa : a ≠ Card.J := fun h => had (h.trans hJd.symm)
          have hKb : b ≠ Card.J := fun h => hcd (h.trans hJd.symm)
          exact hgoal 2 _ (by rw [hcj]; simp [List.count_cons, hJd, hKa, hKb]) (by decide)
        ·
          exact hgoal 0 _ (by rw [hcj]; simp [List.count_cons, hJa, hJb, hJd]) (by decide)
  -- npnn: [a,b,b,d,e] / OnePair
  · subst hbc
    have had : a ≠ d := fun h => hab (eq_of_key_squeeze kab kbd h)
    have hae : a ≠ e := fun h => hab (eq_of_key_squeeze kab kbe h)
    have hbe : b ≠ e := fun h => hcd (eq_of_key_squeeze kbd kde h)
    simp only [List.zip_cons_cons, List.tail_cons, List.zip_nil_right, List.filter, decide_True, decide_False, eq_self_iff_true, List.length_cons, List.length_nil, List.head?_cons, List.getLast?_cons_cons, List.getLast?_singleton, Option.bind_eq_bind, Option.some_bind, Option.pure_def, Prod.mk.injEq, ne_eq, not_true, not_false_eq_true, and_self, if_true, if_false, ite_true, ite_false, Option.some.injEq, hab, hcd, hde] at ht
    subst ht
    rcases eq_or_ne a Card.J with hJa | hJa
    ·
      have hKb : b ≠ Card.J := fun h => hab (hJa.trans h.symm)
      have hKd : d ≠ Card.J := fun h => had (hJa.trans h.symm)
      have hKe : e ≠ Card.J := fun h => hae (hJa.trans h.symm)
      exact hgoal 1 _ (by rw [hcj]; simp [List.count_cons, hJa, hKb, hKd, hKe]) (by decide)
    ·
      rcases eq_or_ne b Card.J with hJb | hJb
      ·
        have hKa : a ≠ Card.J := fun h => hab (h.trans hJb.symm)
        have hKd : d ≠ Card.J := fun h => hcd (hJb.trans h.symm)
        have hKe : e ≠ Card.J := fun h => hbe (hJb.trans h.symm)
        exact hgoal 2 _ (by rw [hcj]; simp [List.count_cons, hJb, hKa, hKd, hKe]) (by decide)
      ·
        rcases eq_or_ne d Card.J with hJd | hJd
        ·
          have hKa : a ≠ Card.J := fun h => had (h.trans hJd.symm)
          have hKb : b ≠ Card.J := fun h => hcd (h.trans hJd.symm)
          have hKe : e ≠ Card.J := fun h => hde (hJd.trans h.symm)
          exact hgoal 1 _ (by rw [hcj]; simp [List.count_cons, hJd, hKa, hKb, hKe]) (by decide)
        ·
          rcases eq_or_ne e Card.J with hJe | hJe
          ·
            have hKa : a ≠ Card.J := fun h => hae (h.trans hJe.symm)
            have hKb : b ≠ Card.J := fun h => hbe (h.trans hJe.symm)
            have hKd : d ≠ Card.J := fun h => hde (h.trans hJe.symm)
            exact hgoal 1 _ (by rw [hcj]; simp [List.count_cons, hJe, hKa, hKb, hKd]) (by decide)
          ·
            exact hgoal 0 _ (by rw [hcj]; simp [List.count_cons, hJa, hJb, hJd, hJe]) (by decide)
  -- nnpp: [a,b,c,c,c] / ThreeOfKind
  · subst hcd
    subst hde
    have hac : a ≠ c := fun h => hab (eq_of_key_squeeze kab kbc h)
    simp only [List.zip_cons_cons, List.tail_cons, List.zip_nil_right, List.filter, decide_True, decide_False, eq_self_iff_true, List.length_cons, List.length_nil, List.head?_cons, List.getLast?_cons_cons, List.getLast?_singleton, Option.bind_eq_bind, Option.some_bind, Option.pure_def, Prod.mk.injEq, ne_eq, not_true, not_false_eq_true, and_self, if_true, if_false, ite_true, ite_false, Option.some.injEq, hab, hbc] at ht
    subst ht
    rcases eq_or_ne a Card.J with hJa | hJa
    ·
      have hKb : b ≠ Card.J := fun h => hab (hJa.trans h.symm)
      have hKc : c ≠ Card.J := fun h => hac (hJa.trans h.symm)
      exact hgoal 1 _ (by rw [hcj]; simp [List.count_cons, hJa, hKb, hKc]) (by decide)
    ·
      rcases eq_or_ne b Card.J with hJb | hJb
      ·
        have hKa : a ≠ Card.J := fun h => hab (h.trans hJb.symm)
        have hKc : c ≠ Card.J := fun h => hbc (hJb.trans h.symm)
        exact hgoal 1 _ (by rw [hcj]; simp [List.count_cons, hJb, hKa, hKc]) (by decide)
      ·
        rcases eq_or_ne c Card.J with hJc | hJc
        ·
          have hKa : a ≠ Card.J := fun h => hac (h.trans hJc.symm)
          have hKb : b ≠ Card.J := fun h => hbc (h.trans hJc.symm)
          exact hgoal 3 _ (by rw [hcj]; simp [List.count_cons, hJc, hKa, hKb]) (by decide)
        ·
          exact hgoal 0 _ (by rw [hcj]; simp [List.count_cons, hJa, hJb, hJc]) (by decide)
  -- nnpn: [a,b,c,c,e] / OnePair
  · subst hcd
    have hac : a ≠ c := fun h => hab (eq_of_key_squeeze kab kbc h)
    have hae : a ≠ e := fun h => hab (eq_of_key_squeeze kab kbe h)
    have hbe : b ≠ e := fun h => hbc (eq_of_key_squeeze kbc kce h)
    simp only [List.zip_cons_cons, List.tail_cons, List.zip_nil_right, List.filter, decide_True, decide_False, eq_self_iff_true, List.length_cons, List.length_nil, List.head?_cons, List.getLast?_cons_cons, List.getLast?_singleton, Option.bind_eq_bind, Option.some_bind, Option.pure_def, Prod.mk.injEq, ne_eq, not_true, not_false_eq_true, and_self, if_true, if_false, ite_true, ite_false, Option.some.injEq, hab, hbc, hde] at ht
    subst ht
    rcases eq_or_ne a Card.J with hJa | hJa
    ·
      have hKb : b ≠ Card.J := fun h => hab (hJa.trans h.symm)
      have hKc : c ≠ Card.J := fun h => hac (hJa.trans h.symm)
      have hKe : e ≠ Card.J := fun h => hae (hJa.trans h.symm)
      exact hgoal 1 _ (by rw [hcj]; simp [List.count_cons, hJa, hKb, hKc, hKe]) (by decide)
    ·
      rcases eq_or_ne b Card.J with hJb | hJb
      ·
        have hKa : a ≠ Card.J := fun h => hab (h.trans hJb.symm)
        have hKc : c ≠ Card.J := fun h => hbc (hJb.trans h.symm)
        have hKe : e ≠ Card.J := fun h => hbe (hJb.trans h.symm)
        exact hgoal 1 _ (by rw [hcj]; simp [List.count_cons, hJb, hKa, hKc, hKe]) (by decide)
      ·
        rcases eq_or_ne c Card.J with hJc | hJc
        ·
          have hKa : a ≠ Card.J := fun h => hac (h.trans hJc.symm)
          have hKb : b ≠ Card.J := fun h => hbc (h.trans hJc.symm)
          have hKe : e ≠ Card.J := fun h => hde (hJc.trans h.symm)
          exact hgoal 2 _ (by rw [hcj]; simp [List.count_cons, hJc, hKa, hKb, hKe]) (by decide)
        ·
          rcases eq_or_ne e Card.J with hJe | hJe
          ·
            have hKa : a ≠ Card.J := fun h => hae (h.trans hJe.symm)
            have hKb : b ≠ Card.J := fun h => hbe (h.trans hJe.symm)
            have hKc : c ≠ Card.J := fun h => hde (h.trans hJe.symm)
            exact hgoal 1 _ (by rw [hcj]; simp [List.count_cons, hJe, hKa, hKb, hKc]) (by decide)
          ·
            exact hgoal 0 _ (by rw [hcj]; simp [List.count_cons, hJa, hJb, hJc, hJe]) (by decide)
  -- nnnp: [a,b,c,d,d] / OnePair
  · subst hde
    have hac : a ≠ c := fun h => hab (eq_of_key_squeeze kab kbc h)
    have had : a ≠ d := fun h => hab (eq_of_key_squeeze kab kbd h)
    have hbd : b ≠ d := fun h => hbc (eq_of_key_squeeze kbc kcd h)
    simp only [List.zip_cons_cons, List.tail_cons, List.zip_nil_right, List.filter, decide_True, decide_False, eq_self_iff_true, List.length_cons, List.length_nil, List.head?_cons, List.getLast?_cons_cons, List.getLast?_singleton, Option.bind_eq_bind, Option.some_bind, Option.pure_def, Prod.mk.injEq, ne_eq, not_true, not_false_eq_true, and_self, if_true, if_false, ite_true, ite_false, Option.some.injEq, hab, hbc, hcd] at ht
    subst ht
    rcases eq_or_ne a Card.J with hJa | hJa
    ·
      have hKb : b ≠ Card.J := fun h => hab (hJa.trans h.symm)
      have hKc : c ≠ Card.J := fun h => hac (hJa.trans h.symm)
      have hKd : d ≠ Card.J := fun h => had (hJa.trans h.symm)
      exact hgoal 1 _ (by rw [hcj]; simp [List.count_cons, hJa, hKb, hKc, hKd]) (by decide)
    ·
      rcases eq_or_ne b Card.J with hJb | hJb
      ·
        have hKa : a ≠ Card.J := fun h => hab (h.trans hJb.symm)
        have hKc : c ≠ Card.J := fun h => hbc (hJb.trans h.symm)
        have hKd : d ≠ Card.J := fun h => hbd (hJb.trans h.symm)
        exact hgoal 1 _ (by rw [hcj]; simp [List.count_cons, hJb, hKa, hKc, hKd]) (by decide)
      ·
        rcases eq_or_ne c Card.J with hJc | hJc
        ·
          have hKa : a ≠ Card.J := fun h => hac (h.trans hJc.symm)
          have hKb : b ≠ Card.J := fun h => hbc (h.trans hJc.symm)
          have hKd : d ≠ Card.J := fun h => hcd (hJc.trans h.symm)
          exact hgoal 1 _ (by rw [hcj]; simp [List.count_cons, hJc, hKa, hKb, hKd]) (by decide)
        ·
          rcases eq_or_ne d Card.J with hJd | hJd
          ·
            have hKa : a ≠ Card.J := fun h => had (h.trans hJd.symm)
            have hKb : b ≠ Card.J := fun h => hbd (h.trans hJd.symm)
            have hKc : c ≠ Card.J := fun h => hcd (h.trans hJd.symm)
            exact hgoal 2 _ (by rw [hcj]; simp [List.count_cons, hJd, hKa, hKb, hKc]) (by decide)
          ·
            exact hgoal 0 _ (by rw [hcj]; simp [List.count_cons, hJa, hJb, hJc, hJd]) (by decide)
  -- nnnn: [a,b,c,d,e] / HighCard
  · have hac : a ≠ c := fun h => hab (eq_of_key_squeeze kab kbc h)
    have had : a ≠ d := fun h => hab (eq_of_key_squeeze kab kbd h)
    have hae : a ≠ e := fun h => hab (eq_of_key_squeeze kab kbe h)
    have hbd : b ≠ d := fun h => hbc (eq_of_key_squeeze kbc kcd h)
    have hbe : b ≠ e := fun h => hbc (eq_of_key_squeeze kbc kce h)
    have hce : c ≠ e := fun h => hcd (eq_of_key_squeeze kcd kde h)
    simp only [List.zip_cons_cons, List.tail_cons, List.zip_nil_right, List.filter, decide_True, decide_False, eq_self_iff_true, List.length_cons, List.length_nil, List.head?_cons, List.getLast?_cons_cons, List.getLast?_singleton, Option.bind_eq_bind, Option.some_bind, Option.pure_def, Prod.mk.injEq, ne_eq, not_true, not_false_eq_true, and_self, if_true, if_false, ite_true, ite_false, Option.some.injEq, hab, hbc, hcd, hde] at ht
    subst ht
    rcases eq_or_ne a Card.J with hJa | hJa
    ·
      have hKb : b ≠ Card.J := fun h => hab (hJa.trans h.symm)
      have hKc : c ≠ Card.J := fun h => hac (hJa.trans h.symm)
      have hKd : d ≠ Card.J := fun h => had (hJa.trans h.symm)
      have hKe : e ≠ Card.J := fun h => hae (hJa.trans h.symm)
      exact hgoal 1 _ (by rw [hcj]; simp [List.count_cons, hJa, hKb, hKc, hKd, hKe]) (by decide)
    ·
      rcases eq_or_ne b Card.J with hJb | hJb
      ·
        have hKa : a ≠ Card.J := fun h => hab (h.trans hJb.symm)
        have hKc : c ≠ Card.J := fun h => hbc (hJb.trans h.symm)
        have hKd : d ≠ Card.J := fun h => hbd (hJb.trans h.symm)
        have hKe : e ≠ Card.J := fun h => hbe (hJb.trans h.symm)
        exact hgoal 1 _ (by rw [hcj]; simp [List.count_cons, hJb, hKa, hKc, hKd, hKe]) (by decide)
      ·
        rcases eq_or_ne c Card.J with hJc | hJc
        ·
          have hKa : a ≠ Card.J := fun h => hac (h.trans hJc.symm)
          have hKb : b ≠ Card.J := fun h => hbc (h.trans hJc.symm)
          have hKd : d ≠ Card.J := fun h => hcd (hJc.trans h.symm)
          have hKe : e ≠ Card.J := fun h => hce (hJc.trans h.symm)
          exact hgoal 1 _ (by rw [hcj]; simp [List.count_cons, hJc, hKa, hKb, hKd, hKe]) (by decide)
        ·
          rcases eq_or_ne d Card.J with hJd | hJd
          ·
            have hKa : a ≠ Card.J := fun h => had (h.trans hJd.symm)
            have hKb : b ≠ Card.J := fun h => hbd (h.trans hJd.symm)
            have hKc : c ≠ Card.J := fun h => hcd (h.trans hJd.symm)
            have hKe : e ≠ Card.J := fun h => hde (hJd.trans h.symm)
            exact hgoal 1 _ (by rw [hcj]; simp [List.count_cons, hJd, hKa, hKb, hKc, hKe]) (by decide)
          ·
            rcases eq_or_ne e Card.J with hJe | hJe
            ·
              have hKa : a ≠ Card.J := fun h => hae (h.trans hJe.symm)
              have hKb : b ≠ Card.J := fun h => hbe (h.trans hJe.symm)
              have hKc : c ≠ Card.J := fun h => hce (h.trans hJe.symm)
              have hKd : d ≠ Card.J := fun h => hde (h.trans hJe.symm)
              exact hgoal 1 _ (by rw [hcj]; simp [List.count_cons, hJe, hKa, hKb, hKc, hKd]) (by decide)
            ·
              exact hgoal 0 _ (by rw [hcj]; simp [List.count_cons, hJa, hJb, hJc, hJd, hJe]) (by decide)


end Day07

end Aoc


/-- **C8 counterexample.** As literally stated the claim quantifies over every
5-card hand whose `h_type` was computed by `HandType::new`; a hand already
containing a `Joker` card next to a `J` (expressible in the `Card` type,
though never produced by parsing) is typed `HighCard`, yet after replacement
it has two jokers and `(2, HighCard)` hits an `unreachable!` arm. -/
theorem c8_joker_conversion_counterexample :
    Aoc.Day07.handTypeNew
        [Aoc.Day07.Card.J, Aoc.Day07.Card.Joker, Aoc.Day07.Card.A,
          Aoc.Day07.Card.K, Aoc.Day07.Card.Q] =
      some Aoc.Day07.HandType.HighCard ∧
    Aoc.Day07.changeToJokerHand
        ⟨[Aoc.Day07.Card.J, Aoc.Day07.Card.Joker, Aoc.Day07.Card.A,
          Aoc.Day07.Card.K, Aoc.Day07.Card.Q],
          Aoc.Day07.HandType.HighCard, 0⟩ = none := by
  constructor <;> rfl

/-- **C8 (amended).** For every 5-card hand with no pre-existing `Joker` card
(as holds for every hand the program parses) whose `h_type` was computed by
`HandType::new` from its cards, `change_to_joker_hand` never reaches an
`unreachable!` arm: after replacing `J` cards with `Joker`, the pair
`(number of jokers, original hand type)` always matches one of the explicitly
listed combinations. -/
theorem c8_joker_conversion_safe (cards : List Aoc.Day07.Card) (bid : Nat)
    (t : Aoc.Day07.HandType) (hlen : cards.length = 5)
    (hnoJ : Aoc.Day07.Card.Joker ∉ cards)
    (ht : Aoc.Day07.handTypeNew cards = some t) :
    (Aoc.Day07.changeToJokerHand ⟨cards, t, bid⟩).isSome :=
  Aoc.Day07.changeToJokerHand_isSome cards bid t hlen hnoJ ht

/-- Witness for C8 at a concrete parsed-like hand `AAAKQ`. -/
theorem c8_joker_conversion_safe_witness :
    (Aoc.Day07.changeToJokerHand
        ⟨[Aoc.Day07.Card.A, Aoc.Day07.Card.A, Aoc.Day07.Card.A,
          Aoc.Day07.Card.K, Aoc.Day07.Card.Q],
          Aoc.Day07.HandType.ThreeOfKind, 765⟩).isSome :=
  c8_joker_conversion_safe
    [Aoc.Day07.Card.A, Aoc.Day07.Card.A, Aoc.Day07.Card.A,
      Aoc.Day07.Card.K, Aoc.Day07.Card.Q] 765 Aoc.Day07.HandType.ThreeOfKind
    (by decide) (by decide) (by decide)

namespace Aoc

/-- Split on a multi-character separator, fueled by the string length
(each round consumes at least the separator, so the fuel always suffices). -/
def splitSeqF (sep : List Char) : Nat → List Char → List (List Char)
  | 0, s => [s]
  | fuel + 1, s =>
    match splitOnceSeq sep s with
    | none => [s]
    | some (pre, post) => pre :: splitSeqF sep fuel post

/-- Model of Rust's `str::split` with a multi-character pattern. -/
def splitSeq (sep s : List Char) : List (List Char) := splitSeqF sep s.length s

/-! ## Day 01 (`day01.rs`): calibration values -/

namespace Day01

/-- `calibration_digits_pt01`: first digit and last digit of the remaining
iterator (repeating the first when it is the only one); `none` models the
`unwrap` panic on a line without digits. -/
def calibrationDigitsPt01 (line : List Char) : Option (Nat × Nat) :=
  match line.filterMap (fun c => if c.isDigit then some (c.toNat - 48) else none) with
  | [] => none
  | f :: rest => some (f, (rest.getLast?).getD f)

/-- The `digit_filter` closure of part 2: a leading ASCII digit, or a spelled
digit name as prefix.  (`s.as_bytes()[0]` on an empty suffix would panic; the
call sites never pass one.) -/
def digitFilter (s : List Char) : Option Nat :=
  match s with
  | [] => none
  | c :: _ =>
    if c.isDigit then some (c.toNat - 48)
    else if "one".toList.isPrefixOf s then some 1
    else if "two".toList.isPrefixOf s then some 2
    else if "three".toList.isPrefixOf s then some 3
    else if "four".toList.isPrefixOf s then some 4
    else if "five".toList.isPrefixOf s then some 5
    else if "six".toList.isPrefixOf s then some 6
    else if "seven".toList.isPrefixOf s then some 7
    else if "eight".toList.isPrefixOf s then some 8
    else if "nine".toList.isPrefixOf s then some 9
    else none

/-- `calibration_digits_pt02`: scan suffixes from the left for the first
match, and suffixes from the right for the last; `none` models the `unwrap`
panic when a line has no match. -/
def calibrationDigitsPt02 (line : List Char) : Option (Nat × Nat) := do
  let len := line.length
  let first ← (List.range len).findSome? fun i => digitFilter (line.drop i)
  let last ← (List.range len).findSome? fun i => digitFilter (line.drop (len - (i + 1)))
  pure (first, last)

/-- `total_calibration_value`: sum `first * 10 + last` over all lines. -/
def totalCalibrationValue (s : List Char)
    (calibration : List Char → Option (Nat × Nat)) : Option Nat := do
  let vals ← (linesOf s).mapM calibration
  pure ((vals.map fun p => p.1 * 10 + p.2).foldl (· + ·) 0)

end Day01

/-! ## Day 02 (`day02.rs`): cube games -/

namespace Day02

inductive Color
  | Red | Green | Blue
deriving DecidableEq

/-- `Game`: id and the per-color maxima. -/
structure Game where
  id : Nat
  maxRed : Nat
  maxGreen : Nat
  maxBlue : Nat
deriving DecidableEq

/-- `FromStr for Color`. -/
def parseColor (s : List Char) : Option Color :=
  if s = "red".toList then some .Red
  else if s = "green".toList then some .Green
  else if s = "blue".toList then some .Blue
  else none

/-- `FromStr for Cube`: `"{number} {color}"`. -/
def parseCube (s : List Char) : Option (Color × Nat) := do
  let ws := wordsOf s
  let qs ← ws.head?
  let q ← parseUInt 32 qs
  let cs ← ws[1]?
  let c ← parseColor cs
  pure (c, q)

/-- `Game::update`. -/
def updateGame (g : Game) (cube : Color × Nat) : Game :=
  match cube.1 with
  | .Red => { g with maxRed := max g.maxRed cube.2 }
  | .Green => { g with maxGreen := max g.maxGreen cube.2 }
  | .Blue => { g with maxBlue := max g.maxBlue cube.2 }

/-- `parse_input`: per line, strip `"Game "`, parse the id, split the record
on `','`/`';'`, trim and parse each cube, and fold the maxima.  `none` covers
both the `?`-style `None` return and the `unwrap` panics inside the loop
(either way the run aborts). -/
def parseInput (input : List Char) : Option (List Game) :=
  (linesOf input).foldlM
    (fun games line => do
      let rest ← stripPre "Game ".toList line
      let parts := splitSeq ": ".toList rest
      let idStr ← parts.head?
      let id ← parseUInt 32 idStr
      let cubesStr ← parts[1]?
      let cubes ← (splitAny (fun c => c = ',' || c = ';') cubesStr).mapM
        (fun cs => parseCube (trimChars cs))
      pure (games ++ [cubes.foldl updateGame ⟨id, 0, 0, 0⟩]))
    []

/-- `Game::is_valid` (limits 12 red, 13 green, 14 blue). -/
def isValid (g : Game) : Bool :=
  g.maxRed ≤ 12 && g.maxGreen ≤ 13 && g.maxBlue ≤ 14

/-- `sum_valid`. -/
def sumValid (games : List Game) : Nat :=
  ((games.filter isValid).map (·.id)).foldl (· + ·) 0

/-- `sum_powers`. -/
def sumPowers (games : List Game) : Nat :=
  (games.map fun g => g.maxRed * g.maxGreen * g.maxBlue).foldl (· + ·) 0

end Day02

end Aoc

namespace Aoc

/-! ## Day 03 (`day03.rs`): gear ratios -/

namespace Day03

/-- `Number`: a number on the grid with its row, start/end columns (source
field `end` renamed `stop`) and part flag. -/
structure Number where
  val : Nat
  row : Nat
  start : Nat
  stop : Nat
  isPart : Bool
deriving DecidableEq

/-- `expand_borders`: surround the grid with a frame of the neutral
character; returns the expanded grid and the expanded row/column counts.
(`none` models the `unwrap` on an input without a first line.) -/
def expandBorders (input : List Char) (neutral : Char) :
    Option (List Char × Nat × Nat) := do
  let firstLine ← (linesOf input).head?
  let nCols := firstLine.length
  let nRows := input.length / (nCols + 1)
  let border := List.replicate (nCols + 2) neutral
  let grid := border ++ ['\n'] ++
    ((linesOf input).flatMap fun l => ['.'] ++ l ++ ['.', '\n']) ++ border
  pure (grid, nRows + 2, nCols + 2)

/-- Digit accumulator resolution: `fold(0, |acc, i| acc * 10 + digit)`. -/
def accToVal (acc : List Char) : Nat :=
  acc.foldl (fun a c => a * 10 + (c.toNat - 48)) 0

/-- One step of the character loop of `find_part_numbers`, carrying
`(numbers, number_acc, start, end)`. -/
def stepChar (row nCols : Nat) (st : List Number × List Char × Nat × Nat)
    (ic : Nat × Char) : List Number × List Char × Nat × Nat :=
  let (numbers, acc0, s0, e0) := st
  let (col, ch) := ic
  let (acc, s, e) :=
    if ch.isDigit ∧ col < nCols then
      (acc0 ++ [ch], if acc0 = [] then col else s0, col)
    else (acc0, s0, e0)
  if acc ≠ [] ∧ (¬ch.isDigit ∨ col = nCols - 1) then
    (numbers ++ [⟨accToVal acc, row, s, e, false⟩], [], 0, 0)
  else (numbers, acc, s, e)

/-- The `contains_symbol` closure: any character that is neither `'.'` nor an
ASCII digit. -/
def containsSymbol (s : List Char) : Bool :=
  s.any fun c => decide (c ≠ '.' ∧ ¬c.isDigit)

/-- Byte-range slice `&grid[i..j]` (in-range at every use on an expanded grid). -/
def slice (grid : List Char) (i j : Nat) : List Char := (grid.drop i).take (j - i)

/-- `find_part_numbers`: scan all numbers with their positions, then mark the
ones adjacent to a symbol (the expanded border makes every slice in-range),
and keep only those. -/
def findPartNumbers (grid : List Char) (nCols : Nat) : List Number :=
  let st := (linesOf grid).enum.foldl
    (fun st rl => rl.2.enum.foldl (stepChar rl.1 nCols) st)
    (([] : List Number), ([] : List Char), 0, 0)
  let numbers := st.1
  let marked := numbers.map fun n =>
    let start := n.start - 1
    let stop := n.stop + 1
    let idxCurr := n.row * (nCols + 1)
    let idxAbove := (n.row - 1) * (nCols + 1)
    let idxBelow := (n.row + 1) * (nCols + 1)
    let isPart :=
      containsSymbol (slice grid (idxAbove + start) (idxAbove + stop + 1)) ||
      containsSymbol (slice grid (idxBelow + start) (idxBelow + stop + 1)) ||
      containsSymbol (slice grid (idxCurr + start) (idxCurr + start + 1)) ||
      containsSymbol (slice grid (idxCurr + stop) (idxCurr + stop + 1))
    { n with isPart := isPart }
  marked.filter (·.isPart)

/-- `Number::is_adjacent` (with `abs_diff` as `Nat.dist`). -/
def isAdjacent (n : Number) (row col : Nat) : Bool :=
  decide (Nat.dist n.row row ≤ 1 ∧ col ≤ n.stop + 1 ∧
    (n.start ≤ col ∨ Nat.dist n.start col = 1))

/-- `find_gears`: for every `'*'`, collect the values of adjacent part
numbers; exactly two of them form a gear whose value is their product. -/
def findGears (grid : List Char) (partNumbers : List Number) : List Nat :=
  (linesOf grid).enum.foldl
    (fun gears rl =>
      rl.2.enum.foldl
        (fun gs cc =>
          if cc.2 = '*' then
            let adjacency := (partNumbers.filter fun n => isAdjacent n rl.1 cc.1).map (·.val)
            if adjacency.length = 2 then gs ++ [adjacency.foldl (· * ·) 1] else gs
          else gs)
        gears)
    []

/-- `sum_numbers`. -/
def sumNumbers (partNumbers : List Number) : Nat :=
  (partNumbers.map (·.val)).foldl (· + ·) 0

/-- `sum_gear_ratios` (sum of the gear products). -/
def sumGearVals (gears : List Nat) : Nat := gears.foldl (· + ·) 0

end Day03

end Aoc

namespace Aoc

namespace Day05

/-- `FromStr for Entry`: three whitespace numbers (destination start, range
start, range length), again via `flat_map(str::parse)` so bad tokens are
dropped and the fields are the first three parseable numbers; missing numbers
are `Err` (`none`), skipped by the caller's `flat_map`.  The range end is
`start + len - 1` in `u64` arithmetic. -/
def parseEntry (s : List Char) : Option Entry := do
  let nums := (wordsOf s).filterMap (parseUInt 64)
  let destinationStart ← nums[0]?
  let start ← nums[1]?
  let len ← nums[2]?
  pure ⟨start, sub64 (add64 start len) 1, destinationStart⟩

/-- `sort_unstable` of a map's entries by the derived `Ord` (compare by
`start`).  Insertion sort produces the same result whenever the starts are
distinct (the unstable sort leaves the order of equal keys unspecified). -/
def sortEntries (m : List Entry) : List Entry :=
  m.insertionSort fun e1 e2 => e1.start ≤ e2.start

/-- `parse_input` of day 05: blocks split on `"\n\n"`; the first must carry
the `"seeds: "` prefix (`unwrap` aborts otherwise); every other block drops
its header line and parses entries with `flat_map` (failed entries skipped),
then sorts them. -/
def parseInput (s : List Char) : Option (List Nat × List (List Entry)) := do
  let blocks := splitSeq "\n\n".toList s
  let first ← blocks.head?
  let seedsStr ← stripPre "seeds: ".toList first
  let seeds := (wordsOf seedsStr).filterMap (parseUInt 64)
  let almanac := blocks.tail.map fun b =>
    sortEntries (((linesOf b).drop 1).filterMap parseEntry)
  pure (seeds, almanac)

end Day05

namespace Day07

/-- `FromStr for Card` (single-character strings: the named faces, or a digit
in `'2'..='9'` parsed as the `N` payload). -/
def parseCard (s : List Char) : Option Card :=
  if s = ['A'] then some .A
  else if s = ['K'] then some .K
  else if s = ['Q'] then some .Q
  else if s = ['J'] then some .J
  else if s = ['T'] then some .T
  else
    match s.head? with
    | none => none
    | some c =>
      if '2' ≤ c ∧ c ≤ '9' then
        (parseUInt 8 s).map fun n => .N ⟨n % 256, Nat.mod_lt n (by omega)⟩
      else none

/-- Lexicographic comparison of the card arrays: the first differing pair
decides (`find(|(a,b)| a != b)`), equal zips are `Equal`. -/
def lexCards : List Card → List Card → Ordering
  | a :: as, b :: bs => if a = b then lexCards as bs else cardCmp a b
  | _, _ => .eq

/-- `Ord for Hand`: by hand type first, then by the cards lexicographically. -/
def handCmp (x y : Hand) : Ordering :=
  match compare x.hType.rank y.hType.rank with
  | .lt => .lt
  | .gt => .gt
  | .eq => lexCards x.cards y.cards

/-- The `≤` relation of the hand order. -/
def handLe (x y : Hand) : Prop := handCmp x y ≠ .gt

instance : DecidableRel handLe := fun x y =>
  inferInstanceAs (Decidable (handCmp x y ≠ .gt))

/-- `sort_unstable` on hands (all hands distinct in the tests, so any
comparison sort gives this result). -/
def sortHands (hs : List Hand) : List Hand := hs.insertionSort handLe

/-- `FromStr for Hand` on one line, distinguishing the abort paths:
`none` is a panic (`try_into().unwrap()` on a card list that is not exactly
5 long, or a panic inside `HandType::new`), `some none` is an `Err` (missing
space or bad bid) that the caller's `flat_map` skips, and `some (some h)` is
a parsed hand. -/
def parseHandLine (s : List Char) : Option (Option Hand) :=
  match splitOnceChar ' ' s with
  | none => some none
  | some (cardsStr, bidStr) =>
    let cards := cardsStr.filterMap fun c => parseCard [c]
    if cards.length = 5 then
      match parseUInt 64 bidStr with
      | none => some none
      | some bid =>
        match handTypeNew cards with
        | none => none
        | some t => some (some ⟨cards, t, bid⟩)
    else none

/-- `parse_input` of day 07: `flat_map` the line parser over the lines and
sort the hands. -/
def parseInput (input : List Char) : Option (List Hand) := do
  let opts ← (linesOf input).mapM parseHandLine
  pure (sortHands (opts.filterMap id))

/-- `total_winnings`: `Σ (i + 1) * bid` over the sorted hands. -/
def totalWinnings (hands : List Hand) : Nat :=
  (hands.enum.map fun ih => (ih.1 + 1) * ih.2.bid).foldl (· + ·) 0

/-- `into_joker_hands`: convert every hand (a panic in any conversion aborts)
and re-sort. -/
def intoJokerHands (hands : List Hand) : Option (List Hand) :=
  (hands.mapM changeToJokerHand).map sortHands

end Day07

end Aoc

namespace Aoc

/-! ## Day 08 (`day08.rs`): haunted wasteland -/

namespace Day08

/-- The node table: insertion-ordered association list (the `HashMap` keys
are distinct in all inputs, so `find?` lookup agrees with map lookup). -/
def Nodes := List (List Char × (List Char × List Char))

/-- `parse_input`: the first line is the direction string; node lines start
after the blank separator (`lines.skip(1)` following the consumed first
line); each node line is sliced at bytes `0..3`, `7..10`, `12..15`; nodes
whose name ends in `'A'` are start nodes.  (Byte slicing of a too-short line
would panic; slices are modelled with `take`/`drop`.) -/
def parseInput (input : List Char) : Option (List Char × Nodes × List (List Char)) := do
  let ls := linesOf input
  let directions ← ls.head?
  let nodeLines := ls.tail.drop 1
  let entries := nodeLines.map fun line =>
    (line.take 3, ((line.drop 7).take 3, (line.drop 12).take 3))
  let starts := (entries.map (·.1)).filter fun n => n.drop 2 = ['A']
  pure (directions, entries, starts)

/-- `HashMap::get`. -/
def lookupNode (nodes : Nodes) (k : List Char) : Option (List Char × List Char) :=
  ((nodes : List _).find? fun p => decide (p.1 = k)).map (·.2)

/-- The step loop of `solve`, fueled: at step `i` take direction
`directions[i % len]`, follow it, and stop (returning `i + 1` as the count)
when the end predicate holds; a missing node is the `.unwrap()` panic. -/
def solveGo (dirs : List Char) (nodes : Nodes) (endP : List Char → Bool) :
    Nat → Nat → List Char → Option Nat
  | 0, _, _ => none
  | fuel + 1, i, node =>
    match lookupNode nodes node with
    | none => none
    | some (l, r) =>
      let next := if dirs.getD (i % dirs.length) 'L' = 'L' then l else r
      if endP next then some (i + 1)
      else solveGo dirs nodes endP fuel (i + 1) next

/-- `solve`: cycle over the directions (an empty direction string makes the
`for` loop exit immediately with count 0). -/
def solve (dirs : List Char) (nodes : Nodes) (start : List Char)
    (endP : List Char → Bool) (fuel : Nat) : Option Nat :=
  if dirs.isEmpty then some 0 else solveGo dirs nodes endP fuel 0 start

/-- `solve_pt1`: from `"AAA"` to `"ZZZ"`. -/
def solvePt1 (dirs : List Char) (nodes : Nodes) (fuel : Nat) : Option Nat :=
  solve dirs nodes "AAA".toList (fun n => decide (n = "ZZZ".toList)) fuel

/-- `solve_pt2`: solve from every start node (names ending in `'Z'` are
ends) and fold `lcm` over the values (`values[0]` panics when empty). -/
def solvePt2 (dirs : List Char) (nodes : Nodes) (starts : List (List Char))
    (fuel : Nat) : Option Nat := do
  let values ← starts.mapM fun st =>
    solve dirs nodes st (fun n => decide (n.drop 2 = ['Z'])) fuel
  let first ← values.head?
  pure (values.tail.foldl Nat.lcm first)

end Day08

/-! ## Day 10 (`day10.rs`): pipe maze -/

namespace Day10

inductive PipeKind
  | Vertical | Horizontal | NorthEastBend | NorthWestBend
  | SouthWestBend | SouthEastBend | Ground | Start
deriving DecidableEq

inductive Direction
  | North | South | East | West
deriving DecidableEq

structure Pipe where
  kind : PipeKind
  isMainPath : Bool
deriving DecidableEq

structure Grid where
  vec : List Pipe
  nCols : Nat
  nRows : Nat
deriving DecidableEq

/-- `Pipe::from_char` (`none` is the `panic!("Invalid Pipe")`). -/
def pipeFromChar (c : Char) : Option Pipe :=
  (match c with
    | '|' => some PipeKind.Vertical
    | '-' => some PipeKind.Horizontal
    | 'L' => some PipeKind.NorthEastBend
    | 'J' => some PipeKind.NorthWestBend
    | '7' => some PipeKind.SouthWestBend
    | 'F' => some PipeKind.SouthEastBend
    | '.' => some PipeKind.Ground
    | 'S' => some PipeKind.Start
    | _ => none).map fun k => ⟨k, false⟩

/-- `Pipe::direct_to`. -/
def directTo (p : Pipe) (dir : Direction) : Option Direction :=
  match p.kind, dir with
  | .Vertical, .North => some .North
  | .Vertical, .South => some .South
  | .Horizontal, .East => some .East
  | .Horizontal, .West => some .West
  | .NorthEastBend, .South => some .East
  | .NorthEastBend, .West => some .North
  | .NorthWestBend, .South => some .West
  | .NorthWestBend, .East => some .North
  | .SouthWestBend, .North => some .West
  | .SouthWestBend, .East => some .South
  | .SouthEastBend, .North => some .East
  | .SouthEastBend, .West => some .South
  | .Start, _ => some dir
  | _, _ => none

/-- `FromStr for Grid`: column count from the first line, row count from the
total length, all non-whitespace characters parsed as pipes. -/
def gridParse (s : List Char) : Option Grid := do
  let p ← splitOnceChar '\n' s
  let nCols := p.1.length
  let nRows := s.length / nCols
  let pipes ← (s.filter fun c => decide (¬c.isWhitespace)).mapM pipeFromChar
  pure ⟨pipes, nCols, nRows⟩

/-- `Grid::pos` — note the source computes the column as `idx % n_rows`
(not `n_cols`), transcribed as-is. -/
def posOf (g : Grid) (idx : Nat) : Nat × Nat := (idx / g.nCols, idx % g.nRows)

/-- `Grid::get` (`none` is the out-of-bounds indexing panic). -/
def gridGet (g : Grid) (row col : Nat) : Option Pipe :=
  g.vec[row * g.nCols + col]?

/-- `Grid::find_start`: position of the `Start` pipe, and a connected
direction (North, else South, else East by default). -/
def findStart (g : Grid) : Option ((Nat × Nat) × Direction) := do
  let idx ← g.vec.findIdx? fun p => decide (p.kind = PipeKind.Start)
  let start := posOf g idx
  let northOk ←
    if 0 < start.1 then (gridGet g (start.1 - 1) start.2).map fun p => (directTo p .North).isSome
    else some false
  if northOk then pure (start, Direction.North)
  else do
    let southOk ←
      if start.1 < g.nRows - 1 then
        (gridGet g (start.1 + 1) start.2).map fun p => (directTo p .South).isSome
      else some false
    pure (start, if southOk then Direction.South else Direction.East)

/-- `Grid::walk`: move one cell (a `usize` underflow at the border is an
out-of-bounds panic, `none`), mark the pipe as on the main path, and follow
it (`direct_to(..).unwrap()`). -/
def walk (g : Grid) (pos : Nat × Nat) (dir : Direction) :
    Option (Grid × (Nat × Nat) × Direction) := do
  let newPos ← match dir with
    | .North => if pos.1 = 0 then none else some (pos.1 - 1, pos.2)
    | .South => some (pos.1 + 1, pos.2)
    | .East => some (pos.1, pos.2 + 1)
    | .West => if pos.2 = 0 then none else some (pos.1, pos.2 - 1)
  let idx := newPos.1 * g.nCols + newPos.2
  let pipe ← g.vec[idx]?
  let newDir ← directTo pipe dir
  pure ({ g with vec := g.vec.set idx { pipe with isMainPath := true } }, newPos, newDir)

/-- The `loop` of `traverse_loop`, fueled. -/
def traverseLoopGo (startPos : Nat × Nat) :
    Nat → Grid → (Nat × Nat) → Direction → Nat → Option Nat
  | 0, _, _, _, _ => none
  | fuel + 1, g, pos, dir, len => do
    let r ← walk g pos dir
    if r.2.1 = startPos then some (len + 1)
    else traverseLoopGo startPos fuel r.1 r.2.1 r.2.2 (len + 1)

/-- `traverse_loop`: walk the loop back to the start and halve the length. -/
def traverseLoop (g : Grid) (fuel : Nat) : Option Nat := do
  let sd ← findStart g
  (traverseLoopGo sd.1 fuel g sd.1 sd.2 0).map (· / 2)

end Day10

/-! ## `main.rs`: the dispatcher -/

/-- The observable outcome of `main`. -/
inductive MainOutcome
  | noArgMsg
  | runDay (d : Nat)
  | invalidMsg
deriving DecidableEq

/-- `main`: no argument prints `"No input argument."` and returns; otherwise
the argument is parsed with `parse::<i32>().unwrap()` — a failed parse is a
panic (`none`, nonzero exit); integers `1..=10` dispatch to a day, anything
else prints `"Invalid input argument."`. -/
def mainModel (arg : Option (List Char)) : Option MainOutcome :=
  match arg with
  | none => some .noArgMsg
  | some s =>
    (parseI32 s).map fun n =>
      if 1 ≤ n ∧ n ≤ 10 then .runDay n.toNat else .invalidMsg

end Aoc

namespace Aoc

/-! ## Per-day `run` output models and the embedded unit-test inputs -/

namespace Day01

/-- The two numeric results printed by `day01::run` (part 1 and part 2). -/
def runPrinted (input : List Char) : Option (List Nat) := do
  let a ← totalCalibrationValue input calibrationDigitsPt01
  let b ← totalCalibrationValue input calibrationDigitsPt02
  pure [a, b]

end Day01

namespace Day02

/-- The two numeric results printed by `day02::run`. -/
def runPrinted (input : List Char) : Option (List Nat) :=
  (parseInput input).map fun gs => [sumValid gs, sumPowers gs]

end Day02

namespace Day03

/-- The two numeric results printed by `day03::run`. -/
def runPrinted (input : List Char) : Option (List Nat) :=
  (expandBorders input '.').map fun g =>
    [sumNumbers (findPartNumbers g.1 g.2.2),
     sumGearVals (findGears g.1 (findPartNumbers g.1 g.2.2))]

end Day03

namespace Day04

/-- The two numeric results printed by `day04::run`. -/
def runPrinted (input : List Char) : Option (List Nat) := do
  let cards := (linesOf input).filterMap parseScratchcard
  let total ← processCardPile cards
  pure [(cards.map points).foldl (· + ·) 0, total]

end Day04

namespace Day05

/-- The two numeric results printed by `day05::run`. -/
def runPrinted (input : List Char) : Option (List Nat) := do
  let p ← parseInput input
  let l2 ← processLowestLocationPt2Mt p.1 p.2
  pure [processLowestLocation p.1 p.2, l2]

end Day05

namespace Day06

/-- The two numeric results printed by `day06::run` (part 2 re-parses the
input with the spaces removed and indexes `race[0]`). -/
def runPrinted (input : List Char) : Option (List Nat) := do
  let races ← parseInput input
  let p1 := (races.map countRecordBeatingWays).foldl (· * ·) 1
  let races2 ← parseInput (input.filter fun c => decide (c ≠ ' '))
  let r0 ← races2.head?
  pure [p1, countRecordBeatingWays r0]

end Day06

namespace Day07

/-- The two numeric results printed by `day07::run`. -/
def runPrinted (input : List Char) : Option (List Nat) := do
  let hands ← parseInput input
  let jh ← intoJokerHands hands
  pure [totalWinnings hands, totalWinnings jh]

end Day07

namespace Day08

/-- The two numeric results printed by `day08::run`. -/
def runPrinted (input : List Char) (fuel : Nat) : Option (List Nat) := do
  let p ← parseInput input
  let c1 ← solvePt1 p.1 p.2.1 fuel
  let c2 ← solvePt2 p.1 p.2.1 p.2.2 fuel
  pure [c1, c2]

end Day08

namespace Day09

/-- The two numeric results printed by `day09::run`. -/
def runPrinted (input : List Char) : Option (List Int) := do
  let hist := parseInput input
  let backs ← hist.mapM fun h => extrapolateBackRec h.length h
  let fronts ← hist.mapM fun h => extrapolateFrontRec h.length h
  pure [backs.foldl (· + ·) 0, fronts.foldl (· + ·) 0]

end Day09

namespace Day10

/-- The numeric results printed by `day10::run`: only the part-1 farthest
distance; part 2 is an unimplemented `// Find enclosed` comment. -/
def runPrinted (input : List Char) (fuel : Nat) : Option (List Nat) := do
  let g ← gridParse input
  let d ← traverseLoop g fuel
  pure [d]

end Day10

namespace TestData

/-- The day02 unit-test input. -/
def in2 : List Char := ("Game 1: 3 blue, 4 red; 1 red, 2 green, 6 blue; 2 green\nGame 2: 1 blue, 2 green; 3 green, 4 blue, 1 red; 1 green, 1 blue\nGame 3: 8 green, 6 blue, 20 red; 5 blue, 4 red, 13 green; 5 green, 1 red\nGame 4: 1 green, 3 red, 6 blue; 3 green, 6 red; 3 green, 15 blue, 14 red\nGame 5: 6 red, 1 blue, 3 green; 2 blue, 1 red, 2 green").toList

/-- The day03 unit-test input. -/
def in3 : List Char := ("467..114..\n...*......\n..35..633.\n......#...\n617*......\n.....+.58.\n..592.....\n......755.\n...$.*....\n.664.598..").toList

/-- The day04 unit-test input. -/
def in4 : List Char := ("Card 1: 41 48 83 86 17 | 83 86  6 31 17  9 48 53\nCard 2: 13 32 20 16 61 | 61 30 68 82 17 32 24 19\nCard 3:  1 21 53 59 44 | 69 82 63 72 16 21 14  1\nCard 4: 41 92 73 84 69 | 59 84 76 51 58  5 54 83\nCard 5: 87 83 26 28 32 | 88 30 70 12 93 22 82 36\nCard 6: 31 18 13 56 72 | 74 77 10 23 35 67 36 11").toList

/-- The day05 unit-test input (the sample almanac). -/
def in5 : List Char := ("seeds: 79 14 55 13\n\nseed-to-soil map:\n50 98 2\n52 50 48\n\nsoil-to-fertilizer map:\n0 15 37\n37 52 2\n39 0 15\n\nfertilizer-to-water map:\n49 53 8\n0 11 42\n42 0 7\n57 7 4\n\nwater-to-light map:\n88 18 7\n18 25 70\n\nlight-to-temperature map:\n45 77 23\n81 45 19\n68 64 13\n\ntemperature-to-humidity map:\n0 69 1\n1 0 69\n\nhumidity-to-location map:\n60 56 37\n56 93 4").toList

/-- The day06 unit-test input (the sample races). -/
def in6 : List Char := ("Time:      7  15   30\nDistance:  9  40  200").toList

/-- The day07 unit-test input. -/
def in7 : List Char := ("32T3K 765\nT55J5 684\nKK677 28\nKTJJT 220\nQQQJA 483").toList

/-- The day08 `pt1_test0` input. -/
def in8a : List Char := ("LLR\n\nAAA = (BBB, BBB)\nBBB = (AAA, ZZZ)\nZZZ = (ZZZ, ZZZ)").toList

/-- The day08 `pt1_test1` input. -/
def in8b : List Char := ("RL\n\nAAA = (BBB, CCC)\nBBB = (DDD, EEE)\nCCC = (ZZZ, GGG)\nDDD = (DDD, DDD)\nEEE = (EEE, EEE)\nGGG = (GGG, GGG)\nZZZ = (ZZZ, ZZZ)").toList

/-- The day08 `pt2_test` input. -/
def in8c : List Char := ("LR\n\n11A = (11B, XXX)\n11B = (XXX, 11Z)\n11Z = (11B, XXX)\n22A = (22B, XXX)\n22B = (22C, 22C)\n22C = (22Z, 22Z)\n22Z = (22B, 22B)\nXXX = (XXX, XXX)").toList

/-- The day09 unit-test input. -/
def in9 : List Char := ("10  13  16  21  30  45").toList

/-- The day10 unit-test input. -/
def in10 : List Char := ("..F7.\n.FJ|.\nSJ.L7\n|F--J\nLJ...").toList

end TestData

end Aoc

/-- **C1.** For each day module, running the embedded example input through
that day's computation functions produces exactly the example outputs
asserted in its unit tests: day01 parts 1 and 2 on their calibration lines,
day02 (8, 2286), day03 (4361, 467835), day04 (the parsed card, the points
8/2/2/1/0/0 and pile total 30), day05 (35 and 46), day06 (4, 8, 9),
day07 (6440 and 5905), day08 (6, 2 and 6), day09 (68 and 5) and day10 (8). -/
theorem c1_unit_test_outputs :
    Aoc.Day01.totalCalibrationValue "1abc2".toList Aoc.Day01.calibrationDigitsPt01 = some 12 ∧
    Aoc.Day01.totalCalibrationValue "pqr3stu8vwx".toList Aoc.Day01.calibrationDigitsPt01 = some 38 ∧
    Aoc.Day01.totalCalibrationValue "a1b2c3d4e5f".toList Aoc.Day01.calibrationDigitsPt01 = some 15 ∧
    Aoc.Day01.totalCalibrationValue "treb7uchet".toList Aoc.Day01.calibrationDigitsPt01 = some 77 ∧
    Aoc.Day01.totalCalibrationValue "two1nine".toList Aoc.Day01.calibrationDigitsPt02 = some 29 ∧
    Aoc.Day01.totalCalibrationValue "eightwothree".toList Aoc.Day01.calibrationDigitsPt02 = some 83 ∧
    Aoc.Day01.totalCalibrationValue "abcone2threexyz".toList Aoc.Day01.calibrationDigitsPt02 = some 13 ∧
    Aoc.Day01.totalCalibrationValue "xtwone3four".toList Aoc.Day01.calibrationDigitsPt02 = some 24 ∧
    Aoc.Day01.totalCalibrationValue "4nineeightseven2".toList Aoc.Day01.calibrationDigitsPt02 = some 42 ∧
    Aoc.Day01.totalCalibrationValue "zoneight234".toList Aoc.Day01.calibrationDigitsPt02 = some 14 ∧
    Aoc.Day01.totalCalibrationValue "7pqrstsixteen".toList Aoc.Day01.calibrationDigitsPt02 = some 76 ∧
    Aoc.Day01.totalCalibrationValue "oneight".toList Aoc.Day01.calibrationDigitsPt02 = some 18 ∧
    (Aoc.Day02.parseInput Aoc.TestData.in2).map
      (fun gs => (Aoc.Day02.sumValid gs, Aoc.Day02.sumPowers gs)) = some (8, 2286) ∧
    (Aoc.Day03.expandBorders Aoc.TestData.in3 '.').map
      (fun g => (Aoc.Day03.sumNumbers (Aoc.Day03.findPartNumbers g.1 g.2.2),
        Aoc.Day03.sumGearVals
          (Aoc.Day03.findGears g.1 (Aoc.Day03.findPartNumbers g.1 g.2.2)))) =
      some (4361, 467835) ∧
    Aoc.Day04.parseScratchcard
      ("Card 1: 41 48 83 86 17 | 83 86  6 31 17  9 48 53").toList = some ⟨1, 4⟩ ∧
    ((Aoc.linesOf Aoc.TestData.in4).filterMap Aoc.Day04.parseScratchcard).map
      Aoc.Day04.points = [8, 2, 2, 1, 0, 0] ∧
    Aoc.Day04.processCardPile
      ((Aoc.linesOf Aoc.TestData.in4).filterMap Aoc.Day04.parseScratchcard) = some 30 ∧
    (Aoc.Day05.parseInput Aoc.TestData.in5).map
      (fun p => (Aoc.Day05.processLowestLocation p.1 p.2,
        Aoc.Day05.processLowestLocationPt2Mt p.1 p.2)) = some (35, some 46) ∧
    (Aoc.Day06.parseInput Aoc.TestData.in6).map
      (fun rs => rs.map Aoc.Day06.countRecordBeatingWays) = some [4, 8, 9] ∧
    (Aoc.Day07.parseInput Aoc.TestData.in7).map
      (fun hs => (Aoc.Day07.totalWinnings hs,
        (Aoc.Day07.intoJokerHands hs).map Aoc.Day07.totalWinnings)) =
      some (6440, some 5905) ∧
    (Aoc.Day08.parseInput Aoc.TestData.in8a).bind
      (fun p => Aoc.Day08.solvePt1 p.1 p.2.1 100) = some 6 ∧
    (Aoc.Day08.parseInput Aoc.TestData.in8b).bind
      (fun p => Aoc.Day08.solvePt1 p.1 p.2.1 100) = some 2 ∧
    (Aoc.Day08.parseInput Aoc.TestData.in8c).bind
      (fun p => Aoc.Day08.solvePt2 p.1 p.2.1 p.2.2 100) = some 6 ∧
    ((Aoc.Day09.parseInput Aoc.TestData.in9).head?).bind
      (Aoc.Day09.extrapolateBackRec 6) = some 68 ∧
    ((Aoc.Day09.parseInput Aoc.TestData.in9).head?).bind
      (Aoc.Day09.extrapolateFrontRec 6) = some 5 ∧
    (Aoc.Day10.gridParse Aoc.TestData.in10).bind
      (fun g => Aoc.Day10.traverseLoop g 100) = some 8 := by
  decide

/-- **C2 counterexample.** The claim says any argument value that is not an
implemented day prints an error and exits normally (exit code 0), but a
non-integer argument such as `"x"` makes `parse::<i32>().unwrap()` panic —
a crash with nonzero exit, not a message (`mainModel` returns `none`). -/
theorem c2_dispatch_counterexample :
    Aoc.mainModel (some "x".toList) = none := by decide

/-- **C2 (amended).** If the single argument parses as an integer naming an
implemented day (1..=10) that day's solution runs; a missing argument or an
integer outside 1..=10 prints an error message and exits normally; but an
argument that does not parse as an integer panics (nonzero exit): `mainModel`
is `none` exactly on unparseable arguments. -/
theorem c2_dispatch_behaviour (arg : Option (List Char)) :
    (Aoc.mainModel arg = none ↔ ∃ s, arg = some s ∧ Aoc.parseI32 s = none) ∧
    (arg = none → Aoc.mainModel arg = some .noArgMsg) ∧
    (∀ s n, arg = some s → Aoc.parseI32 s = some n → 1 ≤ n → n ≤ 10 →
      Aoc.mainModel arg = some (.runDay n.toNat)) ∧
    (∀ s n, arg = some s → Aoc.parseI32 s = some n → (n < 1 ∨ 10 < n) →
      Aoc.mainModel arg = some .invalidMsg) := by
  refine ⟨?_, ?_, ?_, ?_⟩
  · constructor
    · intro h
      cases arg with
      | none => simp [Aoc.mainModel] at h
      | some s =>
        refine ⟨s, rfl, ?_⟩
        by_contra hp
        obtain ⟨n, hn⟩ := Option.ne_none_iff_exists'.mp hp
        simp [Aoc.mainModel, hn] at h
    · rintro ⟨s, rfl, hp⟩
      simp [Aoc.mainModel, hp]
  · rintro rfl
    rfl
  · rintro s n rfl hn h1 h10
    simp [Aoc.mainModel, hn, if_pos (And.intro h1 h10)]
  · rintro s n rfl hn hout
    have : ¬(1 ≤ n ∧ n ≤ 10) := by omega
    simp [Aoc.mainModel, hn, if_neg this]

/-- Witness for C2 at the concrete argument `"5"`. -/
theorem c2_dispatch_behaviour_witness :
    Aoc.mainModel (some "5".toList) = some (.runDay (5 : Int).toNat) :=
  (c2_dispatch_behaviour (some "5".toList)).2.2.1 "5".toList 5 rfl (by decide)
    (by decide) (by decide)

/-- **C3 counterexample.** The claim says any token that fails to parse
causes an immediate abort, but day09's `parse_input` silently skips such a
token: `"x"` fails to parse as `i64`, yet parsing `"1 x 3"` succeeds with
the partial result `[1, 3]`. -/
theorem c3_abort_on_malformed_counterexample :
    Aoc.parseI64 "x".toList = none ∧
      Aoc.Day09.parseInput "1 x 3".toList = [[1, 3]] := by
  constructor <;> decide

/-- **C3 (amended).** Missing files and structural format errors (such as a
missing `"seeds: "` prefix in day05) abort with a diagnostic; but an
individual token or line that fails to parse is silently skipped by the
`flat_map(str::parse)` pipelines and processing continues with the remaining
data — a malformed token can be inserted anywhere without aborting or
changing the surviving results. -/
theorem c3_malformed_input_policy :
    (∀ s : List Char,
      (∀ first, (Aoc.splitSeq "\n\n".toList s).head? = some first →
        ¬("seeds: ".toList.isPrefixOf first)) →
      Aoc.Day05.parseInput s = none) ∧
    (∀ (ws1 ws2 : List (List Char)) (bad : List Char), Aoc.parseI64 bad = none →
      (ws1 ++ bad :: ws2).filterMap Aoc.parseI64 = (ws1 ++ ws2).filterMap Aoc.parseI64) ∧
    Aoc.Day09.parseInput "1 x 3".toList = [[1, 3]] ∧
    (Aoc.Day05.parseInput "seeds: 7 x 9\n\nmap:\n5 3 1".toList).map (·.1) = some [7, 9] ∧
    Aoc.Day07.parseInput "32T3K 765\nBADLINE\nT55J5 684".toList =
      Aoc.Day07.parseInput "32T3K 765\nT55J5 684".toList := by
  refine ⟨?_, ?_, by decide, by decide, by decide⟩
  · intro s h
    unfold Aoc.Day05.parseInput Aoc.stripPre
    cases hh : (Aoc.splitSeq "\n\n".toList s).head? with
    | none => simp only [hh, Option.bind_eq_bind, Option.none_bind]
    | some first =>
      have hne := h first hh
      simp only [hh, Option.bind_eq_bind, Option.some_bind]
      rw [if_neg hne]
      simp only [Option.none_bind]
  · intro ws1 ws2 bad hbad
    simp [List.filterMap_append, List.filterMap_cons, hbad]

/-- Witness for C3 at a concrete structurally-broken day05 input and a
concrete malformed-token insertion. -/
theorem c3_malformed_input_policy_witness :
    Aoc.Day05.parseInput "no header here".toList = none ∧
      ([['1']] ++ ['x'] :: [['3']]).filterMap Aoc.parseI64 =
        ([['1']] ++ [['3']]).filterMap Aoc.parseI64 :=
  ⟨c3_malformed_input_policy.1 "no header here".toList
      (by
        intro first h
        have hv : (Aoc.splitSeq "\n\n".toList "no header here".toList).head? =
            some "no header here".toList := by decide
        rw [hv] at h
        rw [(Option.some.inj h).symm]
        decide),
   c3_malformed_input_policy.2.1 [['1']] [['3']] ['x'] (by decide)⟩

/-- **C4 counterexample.** The claim says every puzzle module's `run`
computes and prints two numeric results, but `day10::run` computes and
prints only the part-1 result (part 2 is an unimplemented comment): on the
day10 unit-test maze it prints exactly one number. -/
theorem c4_two_results_counterexample :
    (Aoc.Day10.runPrinted Aoc.TestData.in10 100).map List.length = some 1 ∧
      ¬((Aoc.Day10.runPrinted Aoc.TestData.in10 100).map List.length = some 2) := by
  constructor <;> decide

/-- **C4 (amended).** Every puzzle module's `run` computes two independent
numeric results — part 1 and part 2 — and prints both, *except* `day10`,
which computes and prints only the part-1 result: whenever a run completes
(`some`), days 01–09 print exactly two values and day10 prints exactly one. -/
theorem c4_run_prints_two_results :
    (∀ input r, Aoc.Day01.runPrinted input = some r → r.length = 2) ∧
    (∀ input r, Aoc.Day02.runPrinted input = some r → r.length = 2) ∧
    (∀ input r, Aoc.Day03.runPrinted input = some r → r.length = 2) ∧
    (∀ input r, Aoc.Day04.runPrinted input = some r → r.length = 2) ∧
    (∀ input r, Aoc.Day05.runPrinted input = some r → r.length = 2) ∧
    (∀ input r, Aoc.Day06.runPrinted input = some r → r.length = 2) ∧
    (∀ input r, Aoc.Day07.runPrinted input = some r → r.length = 2) ∧
    (∀ input fuel r, Aoc.Day08.runPrinted input fuel = some r → r.length = 2) ∧
    (∀ input r, Aoc.Day09.runPrinted input = some r → r.length = 2) ∧
    (∀ input fuel r, Aoc.Day10.runPrinted input fuel = some r → r.length = 1) := by
  refine ⟨?_, ?_, ?_, ?_, ?_, ?_, ?_, ?_, ?_, ?_⟩
  · intro input r h
    simp only [Aoc.Day01.runPrinted, Option.bind_eq_bind, Option.bind_eq_some,
      Option.pure_def, Option.some.injEq] at h
    obtain ⟨a, _, b, _, rfl⟩ := h
    rfl
  · intro input r h
    simp only [Aoc.Day02.runPrinted, Option.map_eq_some'] at h
    obtain ⟨gs, _, rfl⟩ := h
    rfl
  · intro input r h
    simp only [Aoc.Day03.runPrinted, Option.map_eq_some'] at h
    obtain ⟨g, _, rfl⟩ := h
    rfl
  · intro input r h
    simp only [Aoc.Day04.runPrinted, Option.bind_eq_bind, Option.bind_eq_some,
      Option.pure_def, Option.some.injEq] at h
    obtain ⟨a, _, rfl⟩ := h
    rfl
  · intro input r h
    simp only [Aoc.Day05.runPrinted, Option.bind_eq_bind, Option.bind_eq_some,
      Option.pure_def, Option.some.injEq] at h
    obtain ⟨p, _, l2, _, rfl⟩ := h
    rfl
  · intro input r h
    simp only [Aoc.Day06.runPrinted, Option.bind_eq_bind, Option.bind_eq_some,
      Option.pure_def, Option.some.injEq] at h
    obtain ⟨rs, _, rs2, _, r0, _, rfl⟩ := h
    rfl
  · intro input r h
    simp only [Aoc.Day07.runPrinted, Option.bind_eq_bind, Option.bind_eq_some,
      Option.pure_def, Option.some.injEq] at h
    obtain ⟨hs, _, jh, _, rfl⟩ := h
    rfl
  · intro input fuel r h
    simp only [Aoc.Day08.runPrinted, Option.bind_eq_bind, Option.bind_eq_some,
      Option.pure_def, Option.some.injEq] at h
    obtain ⟨p, _, c1, _, c2, _, rfl⟩ := h
    rfl
  · intro input r h
    simp only [Aoc.Day09.runPrinted, Option.bind_eq_bind, Option.bind_eq_some,
      Option.pure_def, Option.some.injEq] at h
    obtain ⟨backs, _, fronts, _, rfl⟩ := h
    rfl
  · intro input fuel r h
    simp only [Aoc.Day10.runPrinted, Option.bind_eq_bind, Option.bind_eq_some,
      Option.pure_def, Option.some.injEq] at h
    obtain ⟨g, _, d, _, rfl⟩ := h
    rfl

/-- Witness for C4 on the embedded unit-test inputs of day01 and day10. -/
theorem c4_run_prints_two_results_witness :
    Aoc.Day01.runPrinted "1abc2".toList = some [12, 12] ∧
      ([12, 12] : List Nat).length = 2 ∧
      Aoc.Day10.runPrinted Aoc.TestData.in10 100 = some [8] ∧
      ([8] : List Nat).length = 1 :=
  ⟨by decide, c4_run_prints_two_results.1 "1abc2".toList [12, 12] (by decide),
   by decide, c4_run_prints_two_results.2.2.2.2.2.2.2.2.2 Aoc.TestData.in10 100 [8] (by decide)⟩
